import Mathlib

/-!
# StringBuilderX: a shallow embedding of `builder.go`

The Go type `StringBuilder` keeps a rune slice `str`, a write cursor `i` and the
two fields that `Reset` reads.  A Go slice is modelled by the part of its backing
array that starts at the slice's first element (so the list's length is `cap`)
together with its `len`.  The builder is the only holder of its backing array
(`String` copies), so value semantics is exact.

Three things are decided by the Go runtime and not by `builder.go`: the capacity
`append` picks when it has to reallocate, float64 arithmetic, and the longest slice
`make` allocates.  They are parameters of the model (`Runtime`).
-/

namespace SBX

/-! ## Go values -/

/-- A Go `rune` (an `int32`); every integer is allowed, so malformed code points are covered. -/
abbrev Rune := Int

/-- A Go `string`: its bytes, each below 256. -/
abbrev GoString := List Nat

/-- Run-time panics the code can raise. -/
inductive Fault where
  /-- Indexed access `s[k]` with `k` outside `[0, len(s))`. -/
  | indexOutOfRange
  /-- Slice expression `s[:j]` with `j` above `cap(s)`. -/
  | sliceBoundsOutOfRange
  /-- The explicit `panic` of `GrowBy` ("Capacity must be >= 1 ..."). -/
  | growByCapacity
  /-- The panic of `make` on a length it does not accept ("makeslice: len out of range"). -/
  | makeLenOutOfRange
  deriving DecidableEq, Repr

deriving instance DecidableEq for Except

/-- The two `errors.New` values `GrowWithRate` can return. -/
inductive GrowError where
  /-- The message "'rate' must be >= 0 ... failed to grow capacity with negative rate". -/
  | negativeRate
  /-- The message "'rate' is too small; failed to grow". -/
  | rateTooSmall
  deriving DecidableEq, Repr

/-! ## Conversions between strings and rune slices (Go language semantics) -/

/-- The rune written for an invalid code point or an invalid byte, U+FFFD. -/
def runeError : Rune := 0xFFFD

/-- A UTF-8 continuation byte, `0x80 ≤ b ≤ 0xBF`. -/
def isCont (b : Nat) : Bool := 0x80 ≤ b && b ≤ 0xBF

/-- UTF-8 encoding of a non-negative code point below 0x110000 that is no surrogate. -/
def encodeScalar (n : Nat) : GoString :=
  if n ≤ 0x7F then [n]
  else if n ≤ 0x7FF then [0xC0 + n / 64, 0x80 + n % 64]
  else if n ≤ 0xFFFF then [0xE0 + n / 4096, 0x80 + n / 64 % 64, 0x80 + n % 64]
  else [0xF0 + n / 262144, 0x80 + n / 4096 % 64, 0x80 + n / 64 % 64, 0x80 + n % 64]

/-- Go's `string(r)` for one rune: runes outside the Unicode range and surrogates
are encoded as U+FFFD. -/
def encodeRune (r : Rune) : GoString :=
  if r < 0 ∨ 0x10FFFF < r ∨ (0xD800 ≤ r ∧ r ≤ 0xDFFF) then encodeScalar 0xFFFD
  else encodeScalar r.toNat

/-- Go's `string(rs)` for a rune slice. -/
def runesToString : List Rune → GoString
  | [] => []
  | r :: rs => encodeRune r ++ runesToString rs

/-- Go's `decoderune` at the start of a non-empty string: the rune and the number of
bytes it takes.  A byte that does not start a well-formed, shortest-form encoding gives
U+FFFD and width 1. -/
def decodeRune : GoString → Rune × Nat
  | [] => (runeError, 1)
  | b0 :: rest =>
    if b0 < 0x80 then ((b0 : Int), 1)
    else if 0xC0 ≤ b0 ∧ b0 < 0xE0 then
      match rest with
      | b1 :: _ =>
        if isCont b1 ∧ 0x7F < b0 % 32 * 64 + b1 % 64 then
          (((b0 % 32 * 64 + b1 % 64 : Nat) : Int), 2)
        else (runeError, 1)
      | _ => (runeError, 1)
    else if 0xE0 ≤ b0 ∧ b0 < 0xF0 then
      match rest with
      | b1 :: b2 :: _ =>
        if isCont b1 ∧ isCont b2 ∧ 0x7FF < b0 % 16 * 4096 + b1 % 64 * 64 + b2 % 64
            ∧ ¬ (0xD800 ≤ b0 % 16 * 4096 + b1 % 64 * 64 + b2 % 64
                  ∧ b0 % 16 * 4096 + b1 % 64 * 64 + b2 % 64 ≤ 0xDFFF) then
          (((b0 % 16 * 4096 + b1 % 64 * 64 + b2 % 64 : Nat) : Int), 3)
        else (runeError, 1)
      | _ => (runeError, 1)
    else if 0xF0 ≤ b0 ∧ b0 < 0xF8 then
      match rest with
      | b1 :: b2 :: b3 :: _ =>
        if isCont b1 ∧ isCont b2 ∧ isCont b3
            ∧ 0xFFFF < b0 % 8 * 262144 + b1 % 64 * 4096 + b2 % 64 * 64 + b3 % 64
            ∧ b0 % 8 * 262144 + b1 % 64 * 4096 + b2 % 64 * 64 + b3 % 64 ≤ 0x10FFFF then
          (((b0 % 8 * 262144 + b1 % 64 * 4096 + b2 % 64 * 64 + b3 % 64 : Nat) : Int), 4)
        else (runeError, 1)
      | _ => (runeError, 1)
    else (runeError, 1)

/-- Go's `[]rune(s)`: the runes of `for _, r := range s`, each step decoding one rune and
moving on by its width. -/
def stringToRunes : GoString → List Rune
  | [] => []
  | b0 :: rest =>
    (decodeRune (b0 :: rest)).1 ::
      match (decodeRune (b0 :: rest)).2, rest with
      | 2, _ :: t => stringToRunes t
      | 3, _ :: _ :: t => stringToRunes t
      | 4, _ :: _ :: _ :: t => stringToRunes t
      | _, t => stringToRunes t

/-- The constant `math.MaxInt64`, the largest `int` on a 64-bit platform. -/
def maxInt64 : Int := 9223372036854775807

/-- The value an `int` computation yielding `x` wraps to (two's complement, 64 bits). -/
def wrapInt64 (x : Int) : Int :=
  (x + 9223372036854775808) % 18446744073709551616 - 9223372036854775808

/-! ## Go slices of runes -/

/-- A Go `[]rune` value: `arr` is the backing array from the slice's first element
on (its length is `cap`), `len` is the slice's length (`len ≤ arr.length`). -/
structure Slice where
  arr : List Rune
  len : Nat
  deriving DecidableEq, Repr

namespace Slice

/-- Go's `cap(s)`. -/
def cap (s : Slice) : Nat := s.arr.length

/-- Go's `make([]rune, n)`: `n` zero runes, length and capacity both `n`. -/
def make (n : Nat) : Slice := ⟨List.replicate n 0, n⟩

/-- Go's `make([]rune, a + k)` for a slice length `a` and an `int` `k` of at least one.  The
`int` sum wraps once it exceeds `maxInt64`, and the wrapped value is then negative; `make`
panics on a negative length and on a length above `maxLen`, the longest rune slice the
runtime allocates.  (`makeSum_eq_wrapped` states this with the wrapped sum itself.) -/
def makeSum (maxLen : Nat) (a : Nat) (k : Int) : Except Fault Slice :=
  if maxInt64 < (a : Int) + k ∨ (maxLen : Int) < (a : Int) + k then .error .makeLenOutOfRange
  else .ok (make (a + k.toNat))

/-- Go's `s[:cap(s)]`. -/
def toCap (s : Slice) : Slice := ⟨s.arr, s.arr.length⟩

/-- Go's slice expression `s[:j]`, legal up to the capacity; yields the runes of the result. -/
def upTo (s : Slice) (j : Nat) : Except Fault (List Rune) :=
  if j ≤ s.cap then .ok (s.arr.take j) else .error .sliceBoundsOutOfRange

/-- Go's indexed store `s[k] = r`, legal below the length. -/
def store (s : Slice) (k : Nat) (r : Rune) : Except Fault Slice :=
  if k < s.len then .ok ⟨s.arr.set k r, s.len⟩ else .error .indexOutOfRange

/-- Go's `append(s, xs...)`.  When `len(s) + len(xs)` fits the capacity the runes are
written behind the length in place.  Otherwise a new array is allocated that holds
the first `len(s)` runes, then `xs`, then zeroes; its capacity is chosen by the
runtime, `growCap (cap s) (len s + len xs)`, and is never below the needed length. -/
def append (growCap : Nat → Nat → Nat) (s : Slice) (xs : List Rune) : Slice :=
  if s.len + xs.length ≤ s.cap then
    ⟨s.arr.take s.len ++ xs ++ s.arr.drop (s.len + xs.length), s.len + xs.length⟩
  else
    ⟨s.arr.take s.len ++ xs
        ++ List.replicate (max (s.len + xs.length) (growCap s.cap (s.len + xs.length))
              - (s.len + xs.length)) 0,
      s.len + xs.length⟩

/-- Go's `copy(dst, src)`: the first `min (len dst) (len src)` runes of `src` overwrite
those of `dst`. -/
def copy (dst src : Slice) : Slice :=
  ⟨src.arr.take (min dst.len src.len) ++ dst.arr.drop (min dst.len src.len), dst.len⟩

end Slice

/-! ## The runtime parameters -/

/-- What `builder.go` leaves to the Go runtime.  `growCap oldCap needed` is the capacity
`append` asks for when it reallocates (the model never lets it fall below `needed`);
`ltZero rate` is the float64 comparison `rate < 0`; `roundMul c rate` is
`int(math.Round(float64(c) * rate))`; `maxLen` is the longest rune slice `make` allocates
in `GrowBy` (for gc, `maxAlloc / 4`). -/
structure Runtime (F : Type) where
  growCap : Nat → Nat → Nat
  maxLen : Nat
  ltZero : F → Bool
  roundMul : Nat → F → Int

/-! ## builder.go -/

/-- The constant `defaultLenAndCap = 1 << 8`. -/
def defaultLenAndCap : Nat := 256

/-- The struct `StringBuilder`. -/
structure StringBuilder where
  str : Slice
  i : Nat
  isDefault : Bool
  defaultCap : Nat
  deriving DecidableEq, Repr

/-- Modelled from the spec: `ternary.Ternary` of the package `util/ternary`, which is not
part of the sources; Reset "if the original was default-sized, [is] equivalent to
NewDefault(); otherwise equivalent to NewWithCapacity(recordedInitialCapacity)", that is,
the call yields its second argument when the condition holds and its third otherwise. -/
def Ternary {α : Type} (cond : Bool) (a b : α) : α := if cond then a else b

/-- `func NewDefault() *StringBuilder`. -/
def NewDefault : StringBuilder :=
  { str := Slice.make defaultLenAndCap, i := 0, isDefault := true, defaultCap := defaultLenAndCap }

/-- `func NewWithCap(capacity uint) *StringBuilder`. -/
def NewWithCap (capacity : Nat) : StringBuilder :=
  { str := Slice.make capacity, i := 0, isDefault := false, defaultCap := capacity }

namespace StringBuilder

/-- `func (sb *StringBuilder) isLackCapacity(toAppend []rune) bool`. -/
def isLackCapacity (sb : StringBuilder) (toAppend : List Rune) : Bool :=
  sb.str.cap < sb.i + toAppend.length

/-- `func (sb *StringBuilder) updateLenToCap()`. -/
def updateLenToCap (sb : StringBuilder) : StringBuilder :=
  { sb with str := sb.str.toCap }

/-- `func (sb *StringBuilder) WriteRune(r rune) *StringBuilder`; the deferred `sb.i++`
is applied on both returns. -/
def WriteRune {F : Type} (rt : Runtime F) (sb : StringBuilder) (r : Rune) :
    Except Fault StringBuilder :=
  let sb := sb.updateLenToCap
  if sb.isLackCapacity [r] then
    .ok { sb with str := sb.str.append rt.growCap [r], i := sb.i + 1 }
  else
    match sb.str.store sb.i r with
    | .ok str => .ok { sb with str := str, i := sb.i + 1 }
    | .error f => .error f

/-- The loop `for i := range toWrite { sb.str[sb.i+i] = toWrite[i] }`, started at loop
index `j` with the runes `toWrite[j:]` still to be stored; `base` is `sb.i`. -/
def writeLoop (base : Nat) : Slice → Nat → List Rune → Except Fault Slice
  | str, _, [] => .ok str
  | str, j, r :: rest =>
    match str.store (base + j) r with
    | .ok str1 => writeLoop base str1 (j + 1) rest
    | .error f => .error f

/-- `func (sb *StringBuilder) WriteString(s string) *StringBuilder`; `len(s)` is the
number of bytes and `rune(s[0])` the value of the first byte. -/
def WriteString {F : Type} (rt : Runtime F) (sb : StringBuilder) (s : GoString) :
    Except Fault StringBuilder :=
  match s with
  | [b] => sb.WriteRune rt (b : Int)
  | _ =>
    let toWrite := stringToRunes s
    if sb.isLackCapacity toWrite then
      .ok { sb with str := sb.str.append rt.growCap toWrite, i := sb.i + toWrite.length }
    else
      let sb := sb.updateLenToCap
      match writeLoop sb.i sb.str 0 toWrite with
      | .ok str => .ok { sb with str := str, i := sb.i + toWrite.length }
      | .error f => .error f

/-- `func (sb *StringBuilder) String() string`. -/
def String (sb : StringBuilder) : Except Fault GoString :=
  match sb.str.upTo sb.i with
  | .ok rs => .ok (runesToString rs)
  | .error f => .error f

/-- `func (sb *StringBuilder) Len() int`. -/
def Len (sb : StringBuilder) : Nat := sb.i

/-- `func (sb *StringBuilder) Cap() int`. -/
def Cap (sb : StringBuilder) : Nat := sb.str.cap

/-- `func (sb *StringBuilder) Reset() *StringBuilder`.  The assignment rebinds the local
pointer `sb` only, so the pair is (the receiver after the call, the returned builder). -/
def Reset (sb : StringBuilder) : StringBuilder × StringBuilder :=
  (sb, Ternary sb.isDefault NewDefault (NewWithCap sb.defaultCap))

/-- `func (sb *StringBuilder) GrowBy(capacity int)`; `make([]rune, len(sb.str)+capacity)`
panics when the sum overflows `int` or is longer than the runtime allocates. -/
def GrowBy {F : Type} (rt : Runtime F) (sb : StringBuilder) (capacity : Int) :
    Except Fault StringBuilder :=
  if capacity < 1 then .error .growByCapacity
  else
    match Slice.makeSum rt.maxLen sb.str.len capacity with
    | .ok buf => .ok { sb with str := Slice.copy buf sb.str }
    | .error f => .error f

/-- `func (sb *StringBuilder) GrowWithRate(rate float64) error`: the builder after the
call and the returned `error` (`none` for `nil`), or the panic of `GrowBy`. -/
def GrowWithRate {F : Type} (rt : Runtime F) (sb : StringBuilder) (rate : F) :
    Except Fault (StringBuilder × Option GrowError) :=
  if rt.ltZero rate then .ok (sb, some .negativeRate)
  else
    let capToAdd := rt.roundMul sb.str.cap rate
    if capToAdd = (sb.str.cap : Int) then .ok (sb, some .rateTooSmall)
    else
      match sb.GrowBy rt capToAdd with
      | .ok sb1 => .ok (sb1, none)
      | .error f => .error f

end StringBuilder

/-! ## Sequences of calls -/

/-- One call on a builder. -/
inductive Op (F : Type) where
  | writeRune (r : Rune)
  | writeString (s : GoString)
  | growBy (capacity : Int)
  | growWithRate (rate : F)

/-- The builder after one call; the error value of `GrowWithRate` is dropped. -/
def step {F : Type} (rt : Runtime F) (sb : StringBuilder) : Op F → Except Fault StringBuilder
  | .writeRune r => sb.WriteRune rt r
  | .writeString s => sb.WriteString rt s
  | .growBy capacity => sb.GrowBy rt capacity
  | .growWithRate rate =>
    match sb.GrowWithRate rt rate with
    | .ok (sb1, _) => .ok sb1
    | .error f => .error f

/-- The builder after a sequence of calls, all of which complete. -/
def run {F : Type} (rt : Runtime F) : StringBuilder → List (Op F) → Except Fault StringBuilder
  | sb, [] => .ok sb
  | sb, op :: ops =>
    match step rt sb op with
    | .ok sb1 => run rt sb1 ops
    | .error f => .error f

/-- A builder obtained from `start` by a sequence of calls that complete. -/
def ReachableFrom {F : Type} (rt : Runtime F) (start sb : StringBuilder) : Prop :=
  ∃ ops : List (Op F), run rt start ops = .ok sb

/-- A builder obtained from one of the two constructors by calls that complete. -/
def Reachable {F : Type} (rt : Runtime F) (sb : StringBuilder) : Prop :=
  ReachableFrom rt NewDefault sb ∨ ∃ c, ReachableFrom rt (NewWithCap c) sb

/-! ## A concrete runtime -/

/-- A finite float64 value, written exactly as `num / 2 ^ exp`. -/
structure Dyadic where
  num : Int
  exp : Nat
  deriving DecidableEq, Repr

/-- Rounding of `p / 2 ^ e` to the nearest integer, halves away from zero (`math.Round`). -/
def roundHalfAway (p : Int) (e : Nat) : Int :=
  if 0 ≤ p then (2 * p + 2 ^ e) / 2 ^ (e + 1) else -((2 * (-p) + 2 ^ e) / 2 ^ (e + 1))

/-- The capacity gc's `growslice` asks for while the old capacity is below its threshold
of 256 elements: the needed length if that exceeds twice the old capacity, twice the old
capacity otherwise (rounding up to an allocation size class is left out). -/
def gcGrowCap (oldCap needed : Nat) : Nat :=
  if 2 * oldCap < needed then needed else 2 * oldCap

/-- A runtime for evaluating examples: gc's doubling, and float64 arithmetic carried out
exactly, which is what IEEE 754 gives whenever the product is representable; `maxLen` is
gc's `maxAlloc / 4` on 64-bit Linux, 2 ^ 46 runes. -/
def gcRuntime : Runtime Dyadic where
  growCap := gcGrowCap
  maxLen := 70368744177664
  ltZero := fun rate => decide (rate.num < 0)
  roundMul := fun c rate => roundHalfAway ((c : Int) * rate.num) rate.exp

/-! ## Closed forms of the operations, and the invariant (used in the proofs) -/

/-- The builder `WriteRune` leaves behind: it never panics. -/
def afterWriteRune {F : Type} (rt : Runtime F) (sb : StringBuilder) (r : Rune) : StringBuilder :=
  if sb.str.cap < sb.i + 1 then
    { sb with str := sb.str.toCap.append rt.growCap [r], i := sb.i + 1 }
  else
    { sb with str := ⟨sb.str.arr.set sb.i r, sb.str.arr.length⟩, i := sb.i + 1 }

/-- The builder left behind by the general path of `WriteString` for the runes `toWrite`. -/
def afterWriteRunes {F : Type} (rt : Runtime F) (sb : StringBuilder) (toWrite : List Rune) :
    StringBuilder :=
  if sb.str.cap < sb.i + toWrite.length then
    { sb with str := sb.str.append rt.growCap toWrite, i := sb.i + toWrite.length }
  else
    { sb with
      str := ⟨sb.str.arr.take sb.i ++ toWrite ++ sb.str.arr.drop (sb.i + toWrite.length),
              sb.str.arr.length⟩,
      i := sb.i + toWrite.length }

/-- The builder `GrowBy` leaves behind when it returns. -/
def afterGrowBy (sb : StringBuilder) (capacity : Int) : StringBuilder :=
  { sb with str := Slice.copy (Slice.make (sb.str.len + capacity.toNat)) sb.str }

/-- `GrowBy` with the receiver made explicit on every exit: the builder as the call leaves
it, and the panic if the call ended in one.  The explicit `panic` is the first statement,
and a panic of `make` comes ahead of `copy` and of the assignment to `sb.str`. -/
def GrowByExit {F : Type} (rt : Runtime F) (sb : StringBuilder) (capacity : Int) :
    StringBuilder × Option Fault :=
  if capacity < 1 then (sb, some .growByCapacity)
  else
    match Slice.makeSum rt.maxLen sb.str.len capacity with
    | .ok buf => ({ sb with str := Slice.copy buf sb.str }, none)
    | .error f => (sb, some f)

/-- The cursor lies within the slice, and the slice within its backing array. -/
def Inv (sb : StringBuilder) : Prop :=
  sb.i ≤ sb.str.len ∧ sb.str.len ≤ sb.str.arr.length

/-! ## Builders and strings of the examples -/

/-- The bytes of "abcd". -/
def abcd : GoString := [97, 98, 99, 100]

/-- The bytes of "hello". -/
def hello : GoString := [104, 101, 108, 108, 111]

/-- `NewWithCap(10)` after `WriteString("hello")`. -/
def helloBuilder : StringBuilder :=
  { str := ⟨[104, 101, 108, 108, 111, 0, 0, 0, 0, 0], 10⟩, i := 5, isDefault := false,
    defaultCap := 10 }

/-- `NewWithCap(3)` after `WriteString("abcd")` and `GrowBy(5)`, under `gcRuntime`. -/
def grownBuilder : StringBuilder :=
  { str := ⟨[0, 0, 0, 97, 98, 99, 100, 0, 0, 0, 0, 0], 12⟩, i := 4, isDefault := false,
    defaultCap := 3 }

/-- `NewWithCap(4)` after `WriteString("abcd")` and `WriteRune('e')`, under `gcRuntime`:
the append of the fifth rune has reallocated to capacity 8, the slice has length 5. -/
def fiveBuilder : StringBuilder :=
  { str := ⟨[97, 98, 99, 100, 101, 0, 0, 0], 5⟩, i := 5, isDefault := false, defaultCap := 4 }

/-- `NewWithCap(4)` after `WriteString("abcd")`: the builder is full. -/
def abcdBuilder : StringBuilder :=
  { str := ⟨[97, 98, 99, 100], 4⟩, i := 4, isDefault := false, defaultCap := 4 }

/-! # Theorems -/

open StringBuilder

/-! ## Lists, strings and slices -/

theorem stringToRunes_examples :
    stringToRunes hello = [104, 101, 108, 108, 111]
    ∧ stringToRunes [0xC3, 0xA9, 0xE2, 0x82, 0xAC, 0xF0, 0x9F, 0x98, 0x80] = [0xE9, 0x20AC, 0x1F600]
    ∧ stringToRunes [0xC3, 0xA9, 0x80, 0xC0, 0xAF] = [0xE9, 0xFFFD, 0xFFFD, 0xFFFD] := by
  decide

theorem runesToString_examples :
    runesToString [0xE9, 0x20AC, 0x1F600] = [0xC3, 0xA9, 0xE2, 0x82, 0xAC, 0xF0, 0x9F, 0x98, 0x80]
    ∧ runesToString [-1, 0xD800, 0x110000] = [0xEF, 0xBF, 0xBD, 0xEF, 0xBF, 0xBD, 0xEF, 0xBF, 0xBD] := by
  decide

theorem Slice.cap_make (n : Nat) : (Slice.make n).cap = n := by
  simp [Slice.cap, Slice.make]

theorem runesToString_append (xs ys : List Rune) :
    runesToString (xs ++ ys) = runesToString xs ++ runesToString ys := by
  induction xs with
  | nil => rfl
  | cons r rs ih => simp [runesToString, ih]

theorem stringToRunes_single (b : Nat) :
    stringToRunes [b] = [if b < 0x80 then (b : Int) else runeError] := by
  have hd : decodeRune [b] = (if b < 0x80 then (b : Int) else runeError, 1) := by
    simp only [decodeRune]
    split_ifs <;> rfl
  simp [stringToRunes, hd]

theorem encodeRune_ascii (b : Nat) (h : b < 0x80) : encodeRune (b : Int) = [b] := by
  have h1 : ¬ ((b : Int) < 0 ∨ 0x10FFFF < (b : Int) ∨ (0xD800 ≤ (b : Int) ∧ (b : Int) ≤ 0xDFFF)) := by
    omega
  have h2 : b ≤ 0x7F := by omega
  rw [encodeRune, if_neg h1, Int.toNat_ofNat, encodeScalar, if_pos h2]

theorem take_set_succ (l : List Rune) (k : Nat) (r : Rune) (h : k < l.length) :
    (l.set k r).take (k + 1) = l.take k ++ [r] := by
  rw [List.set_eq_take_append_cons_drop, if_pos h]
  have hl : (l.take k).length = k := by simp; omega
  have : l.take k ++ r :: l.drop (k + 1) = (l.take k ++ [r]) ++ l.drop (k + 1) := by simp
  rw [this]
  apply List.take_left'
  simp [hl]

theorem writeLoop_ok (base : Nat) :
    ∀ (rest : List Rune) (str : Slice) (j : Nat),
      base + j + rest.length ≤ str.len → str.len ≤ str.arr.length →
      writeLoop base str j rest
        = .ok ⟨str.arr.take (base + j) ++ rest ++ str.arr.drop (base + j + rest.length), str.len⟩ := by
  intro rest
  induction rest with
  | nil =>
    intro str j _ _
    simp [writeLoop]
  | cons r rest ih =>
    intro str j h1 h2
    simp only [List.length_cons] at h1
    have hk : base + j < str.len := by omega
    have hk2 : base + j < str.arr.length := by omega
    simp only [writeLoop, Slice.store, if_pos hk]
    rw [ih ⟨str.arr.set (base + j) r, str.len⟩ (j + 1) (by simp; omega) (by simp; omega)]
    simp only [List.length_cons]
    have e1 : base + (j + 1) = base + j + 1 := by omega
    have e2 : base + j + 1 + rest.length = base + j + (rest.length + 1) := by omega
    rw [e1, take_set_succ _ _ _ hk2, List.drop_set, if_pos (by omega), e2]
    simp

/-! ## The operations in closed form -/

theorem WriteRune_eq {F : Type} (rt : Runtime F) (sb : StringBuilder) (r : Rune) :
    sb.WriteRune rt r = .ok (afterWriteRune rt sb r) := by
  by_cases h : sb.str.cap < sb.i + 1
  · simp [WriteRune, afterWriteRune, updateLenToCap, isLackCapacity, Slice.toCap, Slice.cap, h]
      at *
    simp [h]
  · have h2 : sb.i < sb.str.arr.length := by unfold Slice.cap at h; omega
    have h3 : ¬ sb.str.arr.length < sb.i + 1 := by omega
    simp [WriteRune, afterWriteRune, updateLenToCap, isLackCapacity, Slice.toCap, Slice.cap,
      Slice.store, h2, h3]

theorem WriteString_single {F : Type} (rt : Runtime F) (sb : StringBuilder) (b : Nat) :
    sb.WriteString rt [b] = .ok (afterWriteRune rt sb (b : Int)) := by
  simp [WriteString, WriteRune_eq]

theorem WriteString_general {F : Type} (rt : Runtime F) (sb : StringBuilder) (s : GoString)
    (hs : s.length ≠ 1) :
    sb.WriteString rt s = .ok (afterWriteRunes rt sb (stringToRunes s)) := by
  unfold WriteString
  split
  · simp at hs
  · by_cases h : sb.str.cap < sb.i + (stringToRunes s).length
    · simp [afterWriteRunes, isLackCapacity, h]
    · have h2 : sb.i + (stringToRunes s).length ≤ sb.str.arr.length := by
        unfold Slice.cap at h; omega
      have hl := writeLoop_ok sb.i (stringToRunes s) ⟨sb.str.arr, sb.str.arr.length⟩ 0
        (by simpa using h2) (le_refl _)
      simp only [Nat.add_zero] at hl
      simp [afterWriteRunes, isLackCapacity, h, updateLenToCap, Slice.toCap, hl]

theorem afterWriteRune_i {F : Type} (rt : Runtime F) (sb : StringBuilder) (r : Rune) :
    (afterWriteRune rt sb r).i = sb.i + 1 := by
  unfold afterWriteRune; split <;> rfl

theorem afterWriteRunes_i {F : Type} (rt : Runtime F) (sb : StringBuilder) (ws : List Rune) :
    (afterWriteRunes rt sb ws).i = sb.i + ws.length := by
  unfold afterWriteRunes; split <;> rfl

theorem String_ok (sb : StringBuilder) (h : sb.i ≤ sb.str.arr.length) :
    sb.String = .ok (runesToString (sb.str.arr.take sb.i)) := by
  simp [StringBuilder.String, Slice.upTo, Slice.cap, h]

/-- A one-byte string that survives the conversion to runes and back is ASCII. -/
theorem single_valid_ascii (b : Nat) (hs : runesToString (stringToRunes [b]) = [b]) :
    b < 0x80 := by
  by_contra h
  rw [stringToRunes_single, if_neg h] at hs
  have : runesToString [runeError] = [0xEF, 0xBF, 0xBD] := by decide
  rw [this] at hs
  simp at hs

/-! ## Decoding undoes encoding -/

theorem stringToRunes_w1 (b0 : Nat) (rest : GoString) (r : Rune)
    (h : decodeRune (b0 :: rest) = (r, 1)) :
    stringToRunes (b0 :: rest) = r :: stringToRunes rest := by
  simp [stringToRunes, h]

theorem stringToRunes_w2 (b0 b1 : Nat) (t : GoString) (r : Rune)
    (h : decodeRune (b0 :: b1 :: t) = (r, 2)) :
    stringToRunes (b0 :: b1 :: t) = r :: stringToRunes t := by
  simp [stringToRunes, h]

theorem stringToRunes_w3 (b0 b1 b2 : Nat) (t : GoString) (r : Rune)
    (h : decodeRune (b0 :: b1 :: b2 :: t) = (r, 3)) :
    stringToRunes (b0 :: b1 :: b2 :: t) = r :: stringToRunes t := by
  simp [stringToRunes, h]

theorem stringToRunes_w4 (b0 b1 b2 b3 : Nat) (t : GoString) (r : Rune)
    (h : decodeRune (b0 :: b1 :: b2 :: b3 :: t) = (r, 4)) :
    stringToRunes (b0 :: b1 :: b2 :: b3 :: t) = r :: stringToRunes t := by
  simp [stringToRunes, h]

theorem decode_encodeScalar (n : Nat) (h1 : n ≤ 0x10FFFF) (h2 : ¬ (0xD800 ≤ n ∧ n ≤ 0xDFFF))
    (rest : GoString) :
    stringToRunes (encodeScalar n ++ rest) = (n : Int) :: stringToRunes rest := by
  unfold encodeScalar
  split_ifs with c1 c2 c3
  · apply stringToRunes_w1
    have : n < 0x80 := by omega
    simp [decodeRune, this]
  · apply stringToRunes_w2
    have a1 : ¬ (0xC0 + n / 64 < 0x80) := by omega
    have a2 : 0xC0 ≤ 0xC0 + n / 64 ∧ 0xC0 + n / 64 < 0xE0 := by omega
    have a3 : isCont (0x80 + n % 64) = true := by simp [isCont]; omega
    have a4 : (0xC0 + n / 64) % 32 * 64 + (0x80 + n % 64) % 64 = n := by omega
    have a5 : 0x7F < n := by omega
    simp only [decodeRune, List.cons_append, List.nil_append, if_neg a1, if_pos a2, a3, a4, a5, and_self, if_true]
  · apply stringToRunes_w3
    have a1 : ¬ (0xE0 + n / 4096 < 0x80) := by omega
    have a2 : ¬ (0xC0 ≤ 0xE0 + n / 4096 ∧ 0xE0 + n / 4096 < 0xE0) := by omega
    have a3 : 0xE0 ≤ 0xE0 + n / 4096 ∧ 0xE0 + n / 4096 < 0xF0 := by omega
    have a4 : isCont (0x80 + n / 64 % 64) = true := by simp [isCont]; omega
    have a5 : isCont (0x80 + n % 64) = true := by simp [isCont]; omega
    have a6 : (0xE0 + n / 4096) % 16 * 4096 + (0x80 + n / 64 % 64) % 64 * 64
        + (0x80 + n % 64) % 64 = n := by omega
    have a7 : 0x7FF < n := by omega
    simp only [decodeRune, List.cons_append, List.nil_append, if_neg a1, if_neg a2, if_pos a3,
      a4, a5, a6, a7, h2, and_self, not_false_eq_true, if_true]
  · apply stringToRunes_w4
    have a1 : ¬ (0xF0 + n / 262144 < 0x80) := by omega
    have a2 : ¬ (0xC0 ≤ 0xF0 + n / 262144 ∧ 0xF0 + n / 262144 < 0xE0) := by omega
    have a3 : ¬ (0xE0 ≤ 0xF0 + n / 262144 ∧ 0xF0 + n / 262144 < 0xF0) := by omega
    have a4 : 0xF0 ≤ 0xF0 + n / 262144 ∧ 0xF0 + n / 262144 < 0xF8 := by omega
    have a5 : isCont (0x80 + n / 4096 % 64) = true := by simp [isCont]; omega
    have a6 : isCont (0x80 + n / 64 % 64) = true := by simp [isCont]; omega
    have a7 : isCont (0x80 + n % 64) = true := by simp [isCont]; omega
    have a8 : (0xF0 + n / 262144) % 8 * 262144 + (0x80 + n / 4096 % 64) % 64 * 4096
        + (0x80 + n / 64 % 64) % 64 * 64 + (0x80 + n % 64) % 64 = n := by omega
    have a9 : 0xFFFF < n := by omega
    simp only [decodeRune, List.cons_append, List.nil_append, if_neg a1, if_neg a2, if_neg a3,
      if_pos a4, a5, a6, a7, a8, a9, h1, and_self, if_true]

/-- Decoding undoes encoding on Unicode scalar values. -/
theorem stringToRunes_runesToString (cps : List Int)
    (h : ∀ r ∈ cps, (0 : Int) ≤ r ∧ r ≤ 0x10FFFF ∧ ¬ ((0xD800 : Int) ≤ r ∧ r ≤ 0xDFFF)) :
    stringToRunes (runesToString cps) = cps := by
  induction cps with
  | nil => rfl
  | cons r rs ih =>
    obtain ⟨h0, h1, h2⟩ := h r (List.mem_cons_self r rs)
    have hne : ¬ (r < 0 ∨ 0x10FFFF < r ∨ (0xD800 ≤ r ∧ r ≤ 0xDFFF)) := by omega
    have hr : ((r.toNat : Nat) : Int) = r := Int.toNat_of_nonneg h0
    rw [runesToString, encodeRune, if_neg hne,
      decode_encodeScalar r.toNat (by omega) (by omega), hr,
      ih (fun x hx => h x (List.mem_cons_of_mem r hx))]

/-- The UTF-8 encoding of Unicode scalar values survives the conversion to runes and back:
these are the strings "of `n` code points" the claims about `WriteString` speak of. -/
theorem runesToString_stable (cps : List Int)
    (h : ∀ r ∈ cps, (0 : Int) ≤ r ∧ r ≤ 0x10FFFF ∧ ¬ ((0xD800 : Int) ≤ r ∧ r ≤ 0xDFFF)) :
    runesToString (stringToRunes (runesToString cps)) = runesToString cps
      ∧ (stringToRunes (runesToString cps)).length = cps.length := by
  rw [stringToRunes_runesToString cps h]
  exact ⟨rfl, rfl⟩

/-! ## The invariant of reachable builders -/

theorem Inv_NewDefault : Inv NewDefault := by
  simp [Inv, NewDefault, Slice.make]

theorem Inv_NewWithCap (c : Nat) : Inv (NewWithCap c) := by
  simp [Inv, NewWithCap, Slice.make]

theorem Inv_afterWriteRune {F : Type} (rt : Runtime F) (sb : StringBuilder) (r : Rune)
    (h : Inv sb) : Inv (afterWriteRune rt sb r) := by
  obtain ⟨h1, h2⟩ := h
  unfold afterWriteRune
  split
  · rename_i hc
    unfold Slice.cap at hc
    simp [Inv, Slice.append, Slice.toCap, Slice.cap]
    omega
  · rename_i hc
    unfold Slice.cap at hc
    simp [Inv]
    omega

theorem Inv_afterWriteRunes {F : Type} (rt : Runtime F) (sb : StringBuilder) (ws : List Rune)
    (h : Inv sb) : Inv (afterWriteRunes rt sb ws) := by
  obtain ⟨h1, h2⟩ := h
  unfold afterWriteRunes
  split
  · unfold Slice.append
    split
    · rename_i hc hfit
      unfold Slice.cap at hfit
      simp [Inv]
      omega
    · simp [Inv]
      omega
  · rename_i hc
    unfold Slice.cap at hc
    simp [Inv]
    omega

/-- For operands that are Go `int` values, `makeSum` is `make` applied to the wrapped sum:
a panic when that is negative or above the limit, a slice of that length otherwise. -/
theorem makeSum_eq_wrapped (maxLen a : Nat) (k : Int) (ha : (a : Int) ≤ maxInt64)
    (hk1 : 1 ≤ k) (hk2 : k ≤ maxInt64) :
    Slice.makeSum maxLen a k =
      if wrapInt64 ((a : Int) + k) < 0 ∨ (maxLen : Int) < wrapInt64 ((a : Int) + k) then
        .error .makeLenOutOfRange
      else .ok (Slice.make (wrapInt64 ((a : Int) + k)).toNat) := by
  unfold maxInt64 at ha hk2
  by_cases hs : (a : Int) + k ≤ 9223372036854775807
  · have hw : wrapInt64 ((a : Int) + k) = (a : Int) + k := by unfold wrapInt64; omega
    have ht : ((a : Int) + k).toNat = a + k.toNat := by omega
    rw [hw, ht]
    unfold Slice.makeSum maxInt64
    by_cases hm : (maxLen : Int) < (a : Int) + k
    · have c1 : (9223372036854775807 < (a : Int) + k ∨ (maxLen : Int) < (a : Int) + k) :=
        Or.inr hm
      have c2 : ((a : Int) + k < 0 ∨ (maxLen : Int) < (a : Int) + k) := Or.inr hm
      rw [if_pos c1, if_pos c2]
    · have c1 : ¬ (9223372036854775807 < (a : Int) + k ∨ (maxLen : Int) < (a : Int) + k) := by
        omega
      have c2 : ¬ ((a : Int) + k < 0 ∨ (maxLen : Int) < (a : Int) + k) := by omega
      rw [if_neg c1, if_neg c2]
  · have hw : wrapInt64 ((a : Int) + k) < 0 := by unfold wrapInt64; omega
    unfold Slice.makeSum maxInt64
    rw [if_pos (Or.inl (by omega)), if_pos (Or.inl hw)]

theorem GrowBy_eq {F : Type} (rt : Runtime F) (sb : StringBuilder) (capacity : Int)
    (h : 1 ≤ capacity) (h1 : (sb.str.len : Int) + capacity ≤ maxInt64)
    (h2 : (sb.str.len : Int) + capacity ≤ (rt.maxLen : Int)) :
    sb.GrowBy rt capacity = .ok (afterGrowBy sb capacity) := by
  have hn : ¬ capacity < 1 := by omega
  have hf : ¬ (maxInt64 < (sb.str.len : Int) + capacity
      ∨ (rt.maxLen : Int) < (sb.str.len : Int) + capacity) := by omega
  simp [GrowBy, afterGrowBy, Slice.makeSum, hn, hf]

theorem GrowBy_panics {F : Type} (rt : Runtime F) (sb : StringBuilder) (capacity : Int)
    (h : capacity < 1) : sb.GrowBy rt capacity = .error .growByCapacity := by
  simp [GrowBy, h]

theorem GrowBy_refused {F : Type} (rt : Runtime F) (sb : StringBuilder) (capacity : Int)
    (h : 1 ≤ capacity)
    (hf : maxInt64 < (sb.str.len : Int) + capacity
      ∨ (rt.maxLen : Int) < (sb.str.len : Int) + capacity) :
    sb.GrowBy rt capacity = .error .makeLenOutOfRange := by
  have hn : ¬ capacity < 1 := by omega
  simp [GrowBy, Slice.makeSum, hn, hf]

/-- When `GrowBy` returns, the argument was at least one, the new length was one `make`
accepts, and the builder is `afterGrowBy`. -/
theorem GrowBy_ok {F : Type} (rt : Runtime F) (sb sb1 : StringBuilder) (capacity : Int)
    (h : sb.GrowBy rt capacity = .ok sb1) :
    1 ≤ capacity ∧ (sb.str.len : Int) + capacity ≤ maxInt64
      ∧ (sb.str.len : Int) + capacity ≤ (rt.maxLen : Int) ∧ sb1 = afterGrowBy sb capacity := by
  by_cases hk : 1 ≤ capacity
  · by_cases hf : maxInt64 < (sb.str.len : Int) + capacity
        ∨ (rt.maxLen : Int) < (sb.str.len : Int) + capacity
    · rw [GrowBy_refused rt sb capacity hk hf] at h
      simp at h
    · have h1 : (sb.str.len : Int) + capacity ≤ maxInt64 := by omega
      have h2 : (sb.str.len : Int) + capacity ≤ (rt.maxLen : Int) := by omega
      rw [GrowBy_eq rt sb capacity hk h1 h2] at h
      simp only [Except.ok.injEq] at h
      exact ⟨hk, h1, h2, h.symm⟩
  · rw [GrowBy_panics rt sb capacity (by omega)] at h
    simp at h

theorem afterGrowBy_arr (sb : StringBuilder) (capacity : Int) :
    (afterGrowBy sb capacity).str.arr
      = sb.str.arr.take sb.str.len ++ List.replicate (sb.str.len + capacity.toNat - sb.str.len) 0 := by
  simp [afterGrowBy, Slice.copy, Slice.make]

theorem Inv_afterGrowBy (sb : StringBuilder) (capacity : Int) (h : Inv sb) :
    Inv (afterGrowBy sb capacity) := by
  obtain ⟨h1, h2⟩ := h
  refine ⟨?_, ?_⟩
  · simp [afterGrowBy, Slice.copy, Slice.make]; omega
  · rw [afterGrowBy_arr]
    simp [afterGrowBy, Slice.copy, Slice.make]
    omega

theorem GrowWithRate_eq {F : Type} (rt : Runtime F) (sb : StringBuilder) (rate : F) :
    sb.GrowWithRate rt rate =
      if rt.ltZero rate = true then .ok (sb, some .negativeRate)
      else if rt.roundMul sb.str.cap rate = (sb.str.cap : Int) then .ok (sb, some .rateTooSmall)
      else
        match sb.GrowBy rt (rt.roundMul sb.str.cap rate) with
        | .ok sb1 => .ok (sb1, none)
        | .error f => .error f := by
  unfold GrowWithRate
  by_cases h1 : rt.ltZero rate = true
  · simp [h1]
  · by_cases h2 : rt.roundMul sb.str.cap rate = (sb.str.cap : Int)
    · simp [h1, h2]
    · simp [h1, h2]

theorem GrowWithRate_cases {F : Type} (rt : Runtime F) (sb : StringBuilder) (rate : F)
    (sb1 : StringBuilder) (e : Option GrowError)
    (h : sb.GrowWithRate rt rate = .ok (sb1, e)) :
    (sb1 = sb ∧ e ≠ none)
      ∨ (e = none ∧ sb.GrowBy rt (rt.roundMul sb.str.cap rate) = .ok sb1) := by
  rw [GrowWithRate_eq] at h
  split_ifs at h with h1 h2
  · simp at h; left; simp [← h.1, ← h.2]
  · simp at h; left; simp [← h.1, ← h.2]
  · split at h
    · rename_i sb2 heq
      simp at h
      right
      rw [← h.1, ← h.2]
      exact ⟨rfl, heq⟩
    · simp at h

/-- Every call that completes keeps the invariant and the two fields read by `Reset`. -/
theorem step_keeps {F : Type} (rt : Runtime F) (sb sb1 : StringBuilder) (op : Op F)
    (h : step rt sb op = .ok sb1) :
    (Inv sb → Inv sb1) ∧ sb1.isDefault = sb.isDefault ∧ sb1.defaultCap = sb.defaultCap := by
  cases op with
  | writeRune r =>
    simp only [step, WriteRune_eq, Except.ok.injEq] at h
    subst h
    refine ⟨Inv_afterWriteRune rt sb r, ?_, ?_⟩ <;> (unfold afterWriteRune; split <;> rfl)
  | writeString s =>
    simp only [step] at h
    by_cases h1 : s.length = 1
    · obtain ⟨b, rfl⟩ := List.length_eq_one.mp h1
      simp only [WriteString_single, Except.ok.injEq] at h
      subst h
      refine ⟨Inv_afterWriteRune rt sb _, ?_, ?_⟩ <;> (unfold afterWriteRune; split <;> rfl)
    · simp only [WriteString_general rt sb s h1, Except.ok.injEq] at h
      subst h
      refine ⟨Inv_afterWriteRunes rt sb _, ?_, ?_⟩ <;> (unfold afterWriteRunes; split <;> rfl)
  | growBy capacity =>
    simp only [step] at h
    obtain ⟨_, _, _, h1⟩ := GrowBy_ok rt sb sb1 capacity h
    rw [h1]
    exact ⟨Inv_afterGrowBy sb capacity, rfl, rfl⟩
  | growWithRate rate =>
    simp only [step] at h
    split at h
    · rename_i sb2 e heq
      simp only [Except.ok.injEq] at h
      subst h
      rcases GrowWithRate_cases rt sb rate _ e heq with ⟨h1, _⟩ | ⟨_, h1⟩
      · rw [h1]; exact ⟨id, rfl, rfl⟩
      · rw [(GrowBy_ok rt sb _ _ h1).2.2.2]; exact ⟨Inv_afterGrowBy sb _, rfl, rfl⟩
    · simp at h

theorem run_keeps {F : Type} (rt : Runtime F) :
    ∀ (ops : List (Op F)) (sb sb1 : StringBuilder), run rt sb ops = .ok sb1 →
      (Inv sb → Inv sb1) ∧ sb1.isDefault = sb.isDefault ∧ sb1.defaultCap = sb.defaultCap := by
  intro ops
  induction ops with
  | nil =>
    intro sb sb1 h
    simp only [run, Except.ok.injEq] at h
    subst h
    exact ⟨id, rfl, rfl⟩
  | cons op ops ih =>
    intro sb sb1 h
    simp only [run] at h
    split at h
    · rename_i sb2 hstep
      obtain ⟨a1, a2, a3⟩ := step_keeps rt sb sb2 op hstep
      obtain ⟨b1, b2, b3⟩ := ih sb2 sb1 h
      exact ⟨fun hi => b1 (a1 hi), by rw [b2, a2], by rw [b3, a3]⟩
    · simp at h

theorem Reachable_Inv {F : Type} (rt : Runtime F) (sb : StringBuilder) (h : Reachable rt sb) :
    Inv sb := by
  rcases h with ⟨ops, h⟩ | ⟨c, ops, h⟩
  · exact (run_keeps rt ops _ _ h).1 Inv_NewDefault
  · exact (run_keeps rt ops _ _ h).1 (Inv_NewWithCap c)

/-! ## Claims about writing -/

/-- C2: when `Cap() >= Len() + n` for a well-formed string `s` of `n` code points (one that
survives the conversion to runes and back), `WriteString(s)` completes, `String()` becomes
the previous `String()` followed by `s`, `Cap()` is unchanged and `Len()` grows by `n`.
It holds for every builder value, reached from a constructor or not. -/
theorem C2_writeString_room {F : Type} (rt : Runtime F) (sb : StringBuilder) (s : GoString)
    (hs : runesToString (stringToRunes s) = s)
    (hroom : sb.Len + (stringToRunes s).length ≤ sb.Cap) :
    ∃ prev sb1, sb.String = .ok prev ∧ sb.WriteString rt s = .ok sb1
      ∧ sb1.String = .ok (prev ++ s) ∧ sb1.Cap = sb.Cap
      ∧ sb1.Len = sb.Len + (stringToRunes s).length := by
  simp only [Len, Cap, Slice.cap] at hroom
  have hi : sb.i ≤ sb.str.arr.length := by omega
  refine ⟨runesToString (sb.str.arr.take sb.i), ?_⟩
  by_cases h1 : s.length = 1
  · obtain ⟨b, rfl⟩ := List.length_eq_one.mp h1
    have hb := single_valid_ascii b hs
    rw [stringToRunes_single] at hroom
    simp only [List.length_singleton] at hroom
    have hlt : sb.i < sb.str.arr.length := by omega
    have hnl : ¬ sb.str.cap < sb.i + 1 := by unfold Slice.cap; omega
    have ha : afterWriteRune rt sb (b : Int)
        = { sb with str := ⟨sb.str.arr.set sb.i (b : Int), sb.str.arr.length⟩, i := sb.i + 1 } := by
      unfold afterWriteRune; rw [if_neg hnl]
    refine ⟨afterWriteRune rt sb (b : Int), String_ok sb hi, WriteString_single rt sb b, ?_, ?_, ?_⟩
    · rw [String_ok _ (by rw [ha]; simp; omega), ha]
      simp only []
      rw [take_set_succ _ _ _ hlt, runesToString_append]
      simp [runesToString, encodeRune_ascii b hb]
    · rw [ha]; simp [Cap, Slice.cap]
    · rw [stringToRunes_single]; simp [Len, afterWriteRune_i]
  · have hnl : ¬ sb.str.cap < sb.i + (stringToRunes s).length := by unfold Slice.cap; omega
    have ha : afterWriteRunes rt sb (stringToRunes s)
        = { sb with
            str := ⟨sb.str.arr.take sb.i ++ stringToRunes s
                      ++ sb.str.arr.drop (sb.i + (stringToRunes s).length), sb.str.arr.length⟩,
            i := sb.i + (stringToRunes s).length } := by
      unfold afterWriteRunes; rw [if_neg hnl]
    have hlen : (sb.str.arr.take sb.i ++ stringToRunes s).length
        = sb.i + (stringToRunes s).length := by
      simp; omega
    refine ⟨afterWriteRunes rt sb (stringToRunes s), String_ok sb hi,
      WriteString_general rt sb s h1, ?_, ?_, ?_⟩
    · rw [String_ok _ (by rw [ha]; simp; omega), ha]
      simp only []
      rw [List.take_left' hlen, runesToString_append, hs]
    · rw [ha]; simp [Cap, Slice.cap]; omega
    · simp [Len, afterWriteRunes_i]

/-- C3: on every builder, `WriteString(s)` completes and increases `Len()` by the number of
code points of `s` (whichever branch is taken, the empty string included), and
`WriteRune(r)` completes and increases `Len()` by one. -/
theorem C3_length_accounting {F : Type} (rt : Runtime F) (sb : StringBuilder) :
    (∀ s : GoString, ∃ sb1, sb.WriteString rt s = .ok sb1
        ∧ sb1.Len = sb.Len + (stringToRunes s).length)
    ∧ (∀ r : Rune, ∃ sb1, sb.WriteRune rt r = .ok sb1 ∧ sb1.Len = sb.Len + 1) := by
  constructor
  · intro s
    by_cases h1 : s.length = 1
    · obtain ⟨b, rfl⟩ := List.length_eq_one.mp h1
      exact ⟨_, WriteString_single rt sb b, by
        rw [stringToRunes_single]; simp [Len, afterWriteRune_i]⟩
    · exact ⟨_, WriteString_general rt sb s h1, by simp [Len, afterWriteRunes_i]⟩
  · intro r
    exact ⟨_, WriteRune_eq rt sb r, by simp [Len, afterWriteRune_i]⟩

/-! ## Claims about growing and resetting -/

theorem afterGrowBy_String (sb : StringBuilder) (capacity : Int) (h : Inv sb) :
    (afterGrowBy sb capacity).String = .ok (runesToString (sb.str.arr.take sb.i)) := by
  obtain ⟨h1, h2⟩ := h
  have hlen : (sb.str.arr.take sb.str.len).length = sb.str.len := by simp; omega
  have hi : (afterGrowBy sb capacity).i = sb.i := rfl
  rw [String_ok _ (by rw [afterGrowBy_arr, hi]; simp; omega), afterGrowBy_arr, hi,
    List.take_append_of_le_length (by omega), List.take_take, Nat.min_eq_left h1]

/-- C5: on a builder reached from a constructor, with content `c`: whenever `GrowBy(k)`
returns, `String()` is still `c` and `Len()` is unchanged, and it does return for every
`k >= 1` whose sum with the slice length is a length `make` accepts; `String()` and `Len()`
are also unchanged after every `GrowWithRate(rate)` call that returns `nil`. -/
theorem C5_growth_preserves_content {F : Type} (rt : Runtime F) (sb : StringBuilder)
    (h : Reachable rt sb) :
    ∃ c, sb.String = .ok c
      ∧ (∀ (k : Int) (sb1 : StringBuilder), sb.GrowBy rt k = .ok sb1 →
          sb1.String = .ok c ∧ sb1.Len = sb.Len)
      ∧ (∀ k : Int, 1 ≤ k → (sb.str.len : Int) + k ≤ maxInt64 →
          (sb.str.len : Int) + k ≤ (rt.maxLen : Int) →
          ∃ sb1, sb.GrowBy rt k = .ok sb1 ∧ sb1.String = .ok c ∧ sb1.Len = sb.Len)
      ∧ (∀ (rate : F) (sb1 : StringBuilder), sb.GrowWithRate rt rate = .ok (sb1, none) →
          sb1.String = .ok c ∧ sb1.Len = sb.Len) := by
  have hinv := Reachable_Inv rt sb h
  refine ⟨runesToString (sb.str.arr.take sb.i), String_ok sb (le_trans hinv.1 hinv.2),
    ?_, ?_, ?_⟩
  · intro k sb1 hg
    rw [(GrowBy_ok rt sb sb1 k hg).2.2.2]
    exact ⟨afterGrowBy_String sb k hinv, rfl⟩
  · intro k hk h1 h2
    exact ⟨afterGrowBy sb k, GrowBy_eq rt sb k hk h1 h2, afterGrowBy_String sb k hinv, rfl⟩
  · intro rate sb1 hg
    rcases GrowWithRate_cases rt sb rate sb1 none hg with ⟨_, h2⟩ | ⟨_, h3⟩
    · exact absurd rfl h2
    · rw [(GrowBy_ok rt sb sb1 _ h3).2.2.2]
      exact ⟨afterGrowBy_String sb _ hinv, rfl⟩

/-- C7: `Reset()` on a builder obtained from `NewDefault()` returns an empty builder of
capacity 256, and on a builder obtained from `NewWithCap(K)` an empty builder of capacity
`K`, whatever calls were made in between. -/
theorem C7_reset_size_class {F : Type} (rt : Runtime F) (K : Nat) (sb : StringBuilder) :
    (ReachableFrom rt NewDefault sb →
        sb.Reset.2.Len = 0 ∧ sb.Reset.2.String = .ok [] ∧ sb.Reset.2.Cap = 256)
    ∧ (ReachableFrom rt (NewWithCap K) sb →
        sb.Reset.2.Len = 0 ∧ sb.Reset.2.String = .ok [] ∧ sb.Reset.2.Cap = K) := by
  constructor
  · rintro ⟨ops, h⟩
    obtain ⟨_, h2, _⟩ := run_keeps rt ops _ _ h
    have hd : sb.isDefault = true := by rw [h2]; rfl
    have hr : sb.Reset.2 = NewDefault := by simp [Reset, Ternary, hd]
    rw [hr]
    refine ⟨rfl, ?_, ?_⟩
    · rw [String_ok _ (by simp [NewDefault])]; rfl
    · exact Slice.cap_make 256
  · rintro ⟨ops, h⟩
    obtain ⟨_, h2, h3⟩ := run_keeps rt ops _ _ h
    have hd : sb.isDefault = false := by rw [h2]; rfl
    have hc : sb.defaultCap = K := by rw [h3]; rfl
    have hr : sb.Reset.2 = NewWithCap K := by simp [Reset, Ternary, hd, hc]
    rw [hr]
    refine ⟨rfl, ?_, ?_⟩
    · rw [String_ok _ (by simp [NewWithCap])]; rfl
    · exact Slice.cap_make K

/-! ## Claims about `GrowWithRate` -/

/-- C8: for a negative rate `GrowWithRate` returns the negative-rate error and the builder
(content, `Len()`, `Cap()` and all) is the one it was called on. -/
theorem C8_negative_rate_rejected {F : Type} (rt : Runtime F) (sb : StringBuilder) (rate : F)
    (h : rt.ltZero rate = true) :
    sb.GrowWithRate rt rate = .ok (sb, some .negativeRate) := by
  rw [GrowWithRate_eq, if_pos h]

/-- C9: for a rate that is not negative, `GrowWithRate` returns the "failed to grow" error
exactly when the computed delta `int(math.Round(float64(cap) * rate))` equals `Cap()`, and
then the builder is unchanged; with exact arithmetic the rate 1 fails on every builder. -/
theorem C9_rate_too_small_iff {F : Type} (rt : Runtime F) (sb : StringBuilder) (rate : F)
    (h : rt.ltZero rate = false) :
    ((∃ sb1, sb.GrowWithRate rt rate = .ok (sb1, some .rateTooSmall))
        ↔ rt.roundMul sb.Cap rate = (sb.Cap : Int))
    ∧ (∀ sb1, sb.GrowWithRate rt rate = .ok (sb1, some .rateTooSmall) → sb1 = sb)
    ∧ (∀ sb2 : StringBuilder,
        sb2.GrowWithRate gcRuntime ⟨1, 0⟩ = .ok (sb2, some .rateTooSmall)) := by
  have hz : ¬ rt.ltZero rate = true := by simp [h]
  refine ⟨⟨?_, ?_⟩, ?_, ?_⟩
  · rintro ⟨sb1, h1⟩
    rw [GrowWithRate_eq, if_neg hz] at h1
    by_contra hne
    simp only [Cap] at hne
    rw [if_neg hne] at h1
    split at h1 <;> simp at h1
  · intro he
    simp only [Cap] at he
    exact ⟨sb, by rw [GrowWithRate_eq, if_neg hz, if_pos he]⟩
  · intro sb1 h1
    rcases GrowWithRate_cases rt sb rate sb1 _ h1 with ⟨h2, _⟩ | ⟨h2, _⟩
    · exact h2
    · simp at h2
  · intro sb2
    have hr : gcRuntime.roundMul sb2.str.cap ⟨1, 0⟩ = (sb2.str.cap : Int) := by
      simp only [gcRuntime, roundHalfAway]
      have : (0 : Int) ≤ (sb2.str.cap : Int) * 1 := by omega
      rw [if_pos this]
      omega
    have hl : ¬ gcRuntime.ltZero ⟨1, 0⟩ = true := by decide
    rw [GrowWithRate_eq, if_neg hl, if_pos hr]

/-- C10: for a rate that is not negative and whose computed delta is 0, `GrowWithRate`
does not return `nil`: on a builder of capacity 0 it returns the "failed to grow" error and
leaves the builder as it was, on any other builder it ends in the panic of `GrowBy`. -/
theorem C10_zero_delta_fails {F : Type} (rt : Runtime F) (sb : StringBuilder) (rate : F)
    (h : rt.ltZero rate = false) (h0 : rt.roundMul sb.Cap rate = 0) :
    (sb.Cap = 0 → sb.GrowWithRate rt rate = .ok (sb, some .rateTooSmall))
    ∧ (sb.Cap ≠ 0 → sb.GrowWithRate rt rate = .error .growByCapacity)
    ∧ (∀ sb1, sb.GrowWithRate rt rate ≠ .ok (sb1, none)) := by
  have hz : ¬ rt.ltZero rate = true := by simp [h]
  simp only [Cap] at h0
  have hcase1 : sb.Cap = 0 → sb.GrowWithRate rt rate = .ok (sb, some .rateTooSmall) := by
    intro hc
    simp only [Cap] at hc
    rw [GrowWithRate_eq, if_neg hz, if_pos (by rw [h0, hc]; rfl)]
  have hcase2 : sb.Cap ≠ 0 → sb.GrowWithRate rt rate = .error .growByCapacity := by
    intro hc
    simp only [Cap] at hc
    have hne : ¬ rt.roundMul sb.str.cap rate = (sb.str.cap : Int) := by rw [h0]; omega
    have hlt : rt.roundMul sb.str.cap rate < 1 := by rw [h0]; omega
    rw [GrowWithRate_eq, if_neg hz, if_neg hne, GrowBy_panics rt sb _ hlt]
  refine ⟨hcase1, hcase2, ?_⟩
  intro sb1 hok
  by_cases hc : sb.Cap = 0
  · rw [hcase1 hc] at hok; simp at hok
  · rw [hcase2 hc] at hok; simp at hok

/-! ## Where the code departs from the claims -/

/-- C1 (failing input): on `NewWithCap(3)`, `WriteString("abcd")` takes the insufficient-room
branch, whose `append` puts the text behind the three zero runes of the slice and not at
the cursor: `String()` is then "\u0000\u0000\u0000a", not "abcd", under every runtime. -/
theorem C1_overflow_write_misplaces_text {F : Type} (rt : Runtime F) :
    ∃ sb1, (NewWithCap 3).WriteString rt abcd = .ok sb1
      ∧ sb1.Len = 4 ∧ sb1.String = .ok [0, 0, 0, 97] ∧ sb1.String ≠ .ok abcd := by
  have hr : stringToRunes abcd = [97, 98, 99, 100] := by decide
  have hw := WriteString_general rt (NewWithCap 3) abcd (by decide)
  have he : runesToString [0, 0, 0, 97] = [0, 0, 0, 97] := by decide
  have hstr : (afterWriteRunes rt (NewWithCap 3) (stringToRunes abcd)).String
      = .ok [0, 0, 0, 97] := by
    rw [hr]
    simp [afterWriteRunes, NewWithCap, Slice.make, Slice.cap, Slice.append,
      StringBuilder.String, Slice.upTo, List.replicate, he]
  refine ⟨_, hw, ?_, hstr, ?_⟩
  · rw [Len, afterWriteRunes_i, hr]; rfl
  · rw [hstr]; decide

/-- C4 (failing input): under gc's doubling, `NewWithCap(4)` after `WriteString("abcd")` and
`WriteRune('e')` has `Cap() == 8` with a backing slice of length 5; `GrowBy(1)` then
allocates 5 + 1 runes, so `Cap()` drops from 8 to 6. -/
theorem C4_growBy_lowers_cap :
    (run gcRuntime (NewWithCap 4) [.writeString abcd, .writeRune 101]).map Cap = .ok 8
    ∧ (run gcRuntime (NewWithCap 4) [.writeString abcd, .writeRune 101, .growBy 1]).map Cap
        = .ok 6 := by
  decide

/-- C6 (failing input): under gc's doubling, `NewWithCap(4)` after `WriteString("abcd")` and
`WriteRune('e')` has `Cap() == 8`; after `GrowBy(10)` the capacity is 15, the length of the
backing slice plus 10, and not 8 + 10. -/
theorem C6_growBy_adds_to_len :
    (run gcRuntime (NewWithCap 4) [.writeString abcd, .writeRune 101]).map Cap = .ok 8
    ∧ (run gcRuntime (NewWithCap 4) [.writeString abcd, .writeRune 101]).map
        (fun sb => sb.str.len) = .ok 5
    ∧ (run gcRuntime (NewWithCap 4) [.writeString abcd, .writeRune 101, .growBy 10]).map Cap
        = .ok 15 := by
  decide

/-! ## Instances -/

set_option maxRecDepth 20000 in
/-- `NewDefault()`, `WriteString("hello")`: `String() == "hello"`, `Len() == 5`,
`Cap() == 256`. -/
theorem C2_writeString_room_witness :
    (runesToString (stringToRunes hello) = hello
      ∧ NewDefault.Len + (stringToRunes hello).length ≤ NewDefault.Cap)
    ∧ (∃ prev sb1, NewDefault.String = .ok prev ∧ NewDefault.WriteString gcRuntime hello = .ok sb1
        ∧ sb1.String = .ok (prev ++ hello) ∧ sb1.Cap = NewDefault.Cap
        ∧ sb1.Len = NewDefault.Len + (stringToRunes hello).length)
    ∧ (NewDefault.WriteString gcRuntime hello).bind StringBuilder.String = .ok hello
    ∧ (NewDefault.WriteString gcRuntime hello).map Len = .ok 5
    ∧ (NewDefault.WriteString gcRuntime hello).map Cap = .ok 256 :=
  ⟨⟨by decide, by decide⟩,
    C2_writeString_room gcRuntime NewDefault hello (by decide) (by decide),
    by decide, by decide, by decide⟩

/-- `NewWithCap(10)` after `WriteString("hello")` keeps "hello" across `GrowBy(3)` and
across `GrowWithRate(0.5)`. -/
theorem C5_growth_preserves_content_witness :
    Reachable gcRuntime helloBuilder
    ∧ (∃ c, helloBuilder.String = .ok c
        ∧ (∀ (k : Int) (sb1 : StringBuilder), helloBuilder.GrowBy gcRuntime k = .ok sb1 →
            sb1.String = .ok c ∧ sb1.Len = helloBuilder.Len)
        ∧ (∀ k : Int, 1 ≤ k → (helloBuilder.str.len : Int) + k ≤ maxInt64 →
            (helloBuilder.str.len : Int) + k ≤ (gcRuntime.maxLen : Int) →
            ∃ sb1, helloBuilder.GrowBy gcRuntime k = .ok sb1 ∧ sb1.String = .ok c
              ∧ sb1.Len = helloBuilder.Len)
        ∧ (∀ (rate : Dyadic) (sb1 : StringBuilder),
            helloBuilder.GrowWithRate gcRuntime rate = .ok (sb1, none) →
            sb1.String = .ok c ∧ sb1.Len = helloBuilder.Len))
    ∧ helloBuilder.String = .ok hello
    ∧ (helloBuilder.GrowBy gcRuntime 3).bind StringBuilder.String = .ok hello
    ∧ (helloBuilder.GrowBy gcRuntime 3).map Len = .ok 5
    ∧ (helloBuilder.GrowWithRate gcRuntime ⟨1, 1⟩).map (fun p => (p.1.String, p.1.Cap, p.2))
        = .ok (.ok hello, 15, none) :=
  ⟨Or.inr ⟨10, [.writeString hello], by decide⟩,
    C5_growth_preserves_content gcRuntime helloBuilder
      (Or.inr ⟨10, [.writeString hello], by decide⟩),
    by decide, by decide, by decide, by decide⟩

/-- `Reset()` after a grow gives capacity 256 from `NewDefault()` (grown to 300), and
capacity 3 from `NewWithCap(3)` (grown to 12 by `WriteString("abcd")` and `GrowBy(5)`). -/
theorem C7_reset_size_class_witness :
    (ReachableFrom gcRuntime NewDefault (afterGrowBy NewDefault 44)
      ∧ ReachableFrom gcRuntime (NewWithCap 3) grownBuilder ∧ grownBuilder.Cap = 12)
    ∧ ((afterGrowBy NewDefault 44).Reset.2.Len = 0
      ∧ (afterGrowBy NewDefault 44).Reset.2.String = .ok []
      ∧ (afterGrowBy NewDefault 44).Reset.2.Cap = 256)
    ∧ (grownBuilder.Reset.2.Len = 0 ∧ grownBuilder.Reset.2.String = .ok []
      ∧ grownBuilder.Reset.2.Cap = 3) :=
  ⟨⟨⟨[.growBy 44], rfl⟩, ⟨[.writeString abcd, .growBy 5], by decide⟩, by decide⟩,
    (C7_reset_size_class gcRuntime 3 (afterGrowBy NewDefault 44)).1 ⟨[.growBy 44], rfl⟩,
    (C7_reset_size_class gcRuntime 3 grownBuilder).2
      ⟨[.writeString abcd, .growBy 5], by decide⟩⟩

/-- `NewWithCap(10)`, `GrowWithRate(-0.5)`. -/
theorem C8_negative_rate_rejected_witness :
    gcRuntime.ltZero ⟨-1, 1⟩ = true
    ∧ (NewWithCap 10).GrowWithRate gcRuntime ⟨-1, 1⟩ = .ok (NewWithCap 10, some .negativeRate) :=
  ⟨by decide, C8_negative_rate_rejected gcRuntime (NewWithCap 10) ⟨-1, 1⟩ (by decide)⟩

/-- `NewWithCap(10)`, `GrowWithRate(1.0)`: the delta is 10, the capacity. -/
theorem C9_rate_too_small_iff_witness :
    gcRuntime.ltZero ⟨1, 0⟩ = false
    ∧ gcRuntime.roundMul (NewWithCap 10).Cap ⟨1, 0⟩ = 10
    ∧ ∃ sb1, (NewWithCap 10).GrowWithRate gcRuntime ⟨1, 0⟩ = .ok (sb1, some .rateTooSmall) :=
  ⟨by decide, by decide,
    (C9_rate_too_small_iff gcRuntime (NewWithCap 10) ⟨1, 0⟩ (by decide)).1.2 (by decide)⟩

/-- `NewWithCap(10)`, `GrowWithRate(1/1024)`: the delta rounds to 0 and `GrowBy(0)` panics. -/
theorem C10_zero_delta_fails_witness :
    (gcRuntime.ltZero ⟨1, 10⟩ = false ∧ gcRuntime.roundMul (NewWithCap 10).Cap ⟨1, 10⟩ = 0)
    ∧ (NewWithCap 10).GrowWithRate gcRuntime ⟨1, 10⟩ = .error .growByCapacity :=
  ⟨⟨by decide, by decide⟩,
    (C10_zero_delta_fails gcRuntime (NewWithCap 10) ⟨1, 10⟩ (by decide) (by decide)).2.1
      (by decide)⟩

/-! ## Faults, bounds and the receiver of `Reset` -/

/-- `GrowByExit` and `GrowBy` describe the same call. -/
theorem GrowBy_of_GrowByExit {F : Type} (rt : Runtime F) (sb : StringBuilder)
    (capacity : Int) :
    sb.GrowBy rt capacity =
      match GrowByExit rt sb capacity with
      | (sb1, none) => .ok sb1
      | (_, some f) => .error f := by
  unfold GrowBy GrowByExit
  split_ifs
  · rfl
  · split <;> rfl

theorem GrowByExit_refused {F : Type} (rt : Runtime F) (sb : StringBuilder) (capacity : Int)
    (h : 1 ≤ capacity)
    (hf : maxInt64 < (sb.str.len : Int) + capacity
      ∨ (rt.maxLen : Int) < (sb.str.len : Int) + capacity) :
    GrowByExit rt sb capacity = (sb, some .makeLenOutOfRange) := by
  have hn : ¬ capacity < 1 := by omega
  simp [GrowByExit, Slice.makeSum, hn, hf]

theorem GrowByExit_eq {F : Type} (rt : Runtime F) (sb : StringBuilder) (capacity : Int)
    (h : 1 ≤ capacity) (h1 : (sb.str.len : Int) + capacity ≤ maxInt64)
    (h2 : (sb.str.len : Int) + capacity ≤ (rt.maxLen : Int)) :
    GrowByExit rt sb capacity = (afterGrowBy sb capacity, none) := by
  have hn : ¬ capacity < 1 := by omega
  have hf : ¬ (maxInt64 < (sb.str.len : Int) + capacity
      ∨ (rt.maxLen : Int) < (sb.str.len : Int) + capacity) := by omega
  simp [GrowByExit, afterGrowBy, Slice.makeSum, hn, hf]

/-- C11 (counterexample): `NewWithCap(5)`, `GrowBy(math.MaxInt64)`: the argument is at
least one, yet the call panics, in `make`, because 5 + MaxInt64 overflows `int`. -/
theorem C11_growBy_maxInt_panics :
    (1 : Int) ≤ maxInt64
    ∧ (NewWithCap 5).GrowBy gcRuntime maxInt64 = .error .makeLenOutOfRange := by
  decide

/-- C11 (amended): `GrowBy(k)` with `k < 1` ends in its explicit panic, and the receiver is
then exactly as it was (backing storage, `Len()` and `Cap()` untouched).  With `k >= 1` it
never raises that panic; it returns when `len(sb.str) + k` neither overflows `int` nor
exceeds the longest slice the runtime allocates, and otherwise `make` panics, again with
the receiver exactly as it was. -/
theorem C11_growBy_faults_below_one {F : Type} (rt : Runtime F) (sb : StringBuilder)
    (k : Int) :
    (k < 1 → sb.GrowBy rt k = .error .growByCapacity
        ∧ GrowByExit rt sb k = (sb, some .growByCapacity))
    ∧ (1 ≤ k → sb.GrowBy rt k ≠ .error .growByCapacity)
    ∧ (1 ≤ k → (sb.str.len : Int) + k ≤ maxInt64 → (sb.str.len : Int) + k ≤ (rt.maxLen : Int) →
        ∃ sb1, sb.GrowBy rt k = .ok sb1 ∧ GrowByExit rt sb k = (sb1, none))
    ∧ (1 ≤ k → (maxInt64 < (sb.str.len : Int) + k ∨ (rt.maxLen : Int) < (sb.str.len : Int) + k) →
        sb.GrowBy rt k = .error .makeLenOutOfRange
          ∧ GrowByExit rt sb k = (sb, some .makeLenOutOfRange)) := by
  refine ⟨?_, ?_, ?_, ?_⟩
  · intro h
    exact ⟨GrowBy_panics rt sb k h, by simp [GrowByExit, h]⟩
  · intro h hp
    by_cases hf : maxInt64 < (sb.str.len : Int) + k ∨ (rt.maxLen : Int) < (sb.str.len : Int) + k
    · rw [GrowBy_refused rt sb k h hf] at hp
      simp at hp
    · rw [GrowBy_eq rt sb k h (by omega) (by omega)] at hp
      simp at hp
  · intro h h1 h2
    exact ⟨afterGrowBy sb k, GrowBy_eq rt sb k h h1 h2, GrowByExit_eq rt sb k h h1 h2⟩
  · intro h hf
    exact ⟨GrowBy_refused rt sb k h hf, GrowByExit_refused rt sb k h hf⟩

/-- C12: every builder reached from a constructor by calls that complete has
`Len() <= Cap()`, and its cursor does not exceed the length of the backing slice, which
does not exceed the capacity (`Len()` is a natural number here: the cursor starts at 0 and
is only ever increased). -/
theorem C12_len_le_cap {F : Type} (rt : Runtime F) (sb : StringBuilder)
    (h : Reachable rt sb) :
    0 ≤ sb.Len ∧ sb.Len ≤ sb.Cap ∧ sb.i ≤ sb.str.len ∧ sb.str.len ≤ sb.str.cap := by
  obtain ⟨h1, h2⟩ := Reachable_Inv rt sb h
  exact ⟨Nat.zero_le _, le_trans h1 h2, h1, h2⟩

/-- C13: on a builder reached from a constructor, `WriteRune`, `WriteString` and `String`
return without a panic: the store `sb.str[sb.i]` of `WriteRune` and the stores
`sb.str[sb.i+j]` of `WriteString` are below the slice length at the time they are made,
and `sb.str[:sb.i]` is within the capacity.  (`Len`, `Cap` and `Reset` index nothing.) -/
theorem C13_writes_and_reads_complete {F : Type} (rt : Runtime F) (sb : StringBuilder)
    (h : Reachable rt sb) :
    (∀ r : Rune, (∃ sb1, sb.WriteRune rt r = .ok sb1)
        ∧ (sb.updateLenToCap.isLackCapacity [r] = false →
            sb.updateLenToCap.i < sb.updateLenToCap.str.len))
    ∧ (∀ s : GoString, (∃ sb1, sb.WriteString rt s = .ok sb1)
        ∧ (s.length ≠ 1 → sb.isLackCapacity (stringToRunes s) = false →
            ∀ j, j < (stringToRunes s).length →
              sb.updateLenToCap.i + j < sb.updateLenToCap.str.len))
    ∧ (∃ str, sb.String = .ok str) ∧ sb.i ≤ sb.str.cap := by
  obtain ⟨h1, h2⟩ := Reachable_Inv rt sb h
  refine ⟨?_, ?_, ⟨_, String_ok sb (le_trans h1 h2)⟩, le_trans h1 h2⟩
  · intro r
    refine ⟨⟨_, WriteRune_eq rt sb r⟩, ?_⟩
    simp [isLackCapacity, updateLenToCap, Slice.toCap, Slice.cap]
    omega
  · intro s
    refine ⟨?_, ?_⟩
    · by_cases hs : s.length = 1
      · obtain ⟨b, rfl⟩ := List.length_eq_one.mp hs
        exact ⟨_, WriteString_single rt sb b⟩
      · exact ⟨_, WriteString_general rt sb s hs⟩
    · intro _ hl j hj
      simp [isLackCapacity, Slice.cap] at hl
      simp [updateLenToCap, Slice.toCap]
      omega

/-- C14: `Reset()` leaves its receiver as it was, so the receiver's `String()`, `Len()` and
`Cap()` are those from before the call; the builder it returns is empty. -/
theorem C14_reset_keeps_receiver (sb : StringBuilder) :
    sb.Reset.1 = sb
    ∧ sb.Reset.1.String = sb.String ∧ sb.Reset.1.Len = sb.Len ∧ sb.Reset.1.Cap = sb.Cap
    ∧ sb.Reset.2.Len = 0 ∧ sb.Reset.2.String = .ok [] := by
  refine ⟨rfl, rfl, rfl, rfl, ?_, ?_⟩
  · cases hd : sb.isDefault <;> simp [Reset, Ternary, hd, Len, NewDefault, NewWithCap]
  · cases hd : sb.isDefault
    · simp only [Reset, Ternary, hd]
      rw [String_ok _ (by simp [NewWithCap])]; rfl
    · simp only [Reset, Ternary, hd]
      rw [String_ok _ (by simp [NewDefault])]; rfl

/-! ## `WriteRune` and one-code-point strings -/

theorem afterWriteRune_String {F : Type} (rt : Runtime F) (sb : StringBuilder) (r : Rune)
    (h : Inv sb) :
    (afterWriteRune rt sb r).String = .ok (runesToString (sb.str.arr.take sb.i ++ [r])) := by
  obtain ⟨h1, h2⟩ := h
  by_cases hc : sb.str.cap < sb.i + 1
  · have hi : sb.i = sb.str.arr.length := by unfold Slice.cap at hc; omega
    have ha : afterWriteRune rt sb r
        = { sb with str := sb.str.toCap.append rt.growCap [r], i := sb.i + 1 } := by
      unfold afterWriteRune; rw [if_pos hc]
    have harr : (sb.str.toCap.append rt.growCap [r]).arr
        = (sb.str.arr ++ [r]) ++ List.replicate
            (max (sb.str.arr.length + 1) (rt.growCap sb.str.arr.length (sb.str.arr.length + 1))
              - (sb.str.arr.length + 1)) 0 := by
      simp [Slice.append, Slice.toCap, Slice.cap]
    have hlen : (sb.str.arr ++ [r]).length = sb.i + 1 := by simp [hi]
    rw [String_ok _ (by rw [ha]; simp only []; rw [harr]; simp; omega), ha]
    simp only []
    rw [harr, List.take_left' hlen, hi, List.take_length]
  · have hlt : sb.i < sb.str.arr.length := by unfold Slice.cap at hc; omega
    have ha : afterWriteRune rt sb r
        = { sb with str := ⟨sb.str.arr.set sb.i r, sb.str.arr.length⟩, i := sb.i + 1 } := by
      unfold afterWriteRune; rw [if_neg hc]
    rw [String_ok _ (by rw [ha]; simp; omega), ha]
    simp only []
    rw [take_set_succ _ _ _ hlt]

/-- C16: on a builder reached from a constructor, `WriteRune(r)` returns and `String()` is
then the previous `String()` followed by `string(r)`, in both branches; the branch that
appends is taken only when `Len() == Cap()`. -/
theorem C16_writeRune_at_logical_end {F : Type} (rt : Runtime F) (sb : StringBuilder)
    (r : Rune) (h : Reachable rt sb) :
    ∃ prev sb1, sb.String = .ok prev ∧ sb.WriteRune rt r = .ok sb1
      ∧ sb1.String = .ok (prev ++ encodeRune r)
      ∧ (sb.updateLenToCap.isLackCapacity [r] = true → sb.Len = sb.Cap) := by
  have hinv := Reachable_Inv rt sb h
  refine ⟨runesToString (sb.str.arr.take sb.i), afterWriteRune rt sb r,
    String_ok sb (le_trans hinv.1 hinv.2), WriteRune_eq rt sb r, ?_, ?_⟩
  · rw [afterWriteRune_String rt sb r hinv, runesToString_append]
    simp [runesToString]
  · intro hl
    obtain ⟨h1, h2⟩ := hinv
    simp [isLackCapacity, updateLenToCap, Slice.toCap, Slice.cap] at hl
    simp only [Len, Cap, Slice.cap]
    omega

theorem afterWriteRunes_single {F : Type} (rt : Runtime F) (sb : StringBuilder) (r : Rune)
    (h : Inv sb) : afterWriteRunes rt sb [r] = afterWriteRune rt sb r := by
  obtain ⟨h1, h2⟩ := h
  unfold afterWriteRunes afterWriteRune
  simp only [List.length_singleton]
  by_cases hc : sb.str.cap < sb.i + 1
  · have hl : sb.str.len = sb.str.arr.length := by unfold Slice.cap at hc; omega
    have ht : sb.str.toCap = sb.str := by
      cases hs : sb.str with
      | mk arr len => simp [Slice.toCap]; rw [hs] at hl; exact hl.symm
    rw [if_pos hc, if_pos hc, ht]
  · have hlt : sb.i < sb.str.arr.length := by unfold Slice.cap at hc; omega
    rw [if_neg hc, if_neg hc, List.set_eq_take_append_cons_drop, if_pos hlt]
    simp

/-- C17: on a builder reached from a constructor, for a well-formed string `s` whose only
code point is `r`, `WriteString(s)` and `WriteRune(r)` return the same builder, hence the
same `String()`, `Len()` and `Cap()`, whether `s` is one byte long (the shortcut) or
longer (the general path). -/
theorem C17_single_code_point_agrees {F : Type} (rt : Runtime F) (sb : StringBuilder)
    (s : GoString) (r : Rune) (h : Reachable rt sb)
    (hs : runesToString (stringToRunes s) = s) (h1 : stringToRunes s = [r]) :
    ∃ sb1, sb.WriteString rt s = .ok sb1 ∧ sb.WriteRune rt r = .ok sb1 := by
  have hinv := Reachable_Inv rt sb h
  refine ⟨afterWriteRune rt sb r, ?_, WriteRune_eq rt sb r⟩
  by_cases hlen : s.length = 1
  · obtain ⟨b, rfl⟩ := List.length_eq_one.mp hlen
    have hb := single_valid_ascii b hs
    rw [stringToRunes_single, if_pos hb] at h1
    simp only [List.cons.injEq, and_true] at h1
    rw [WriteString_single, h1]
  · rw [WriteString_general rt sb s hlen, h1, afterWriteRunes_single rt sb r hinv]

/-- Outside well-formed text the shortcut is visible: the lone byte 0x80 decodes to U+FFFD,
yet `WriteString` stores the rune 0x80, which `String()` renders as the bytes C2 80. -/
theorem WriteString_lone_invalid_byte :
    stringToRunes [0x80] = [0xFFFD]
    ∧ ((NewWithCap 1).WriteString gcRuntime [0x80]).bind StringBuilder.String = .ok [0xC2, 0x80]
    ∧ ((NewWithCap 1).WriteRune gcRuntime 0xFFFD).bind StringBuilder.String
        = .ok [0xEF, 0xBF, 0xBD] := by
  decide

/-! ## The storage `GrowBy` allocates -/

/-- C18: for `k >= 1`, whenever `GrowBy(k)` returns, the backing slice has length and
capacity both equal to the old slice length plus `k` and holds the old slice (all
`len(sb.str)` runes of it) followed by `k` zero runes, the cursor being untouched; and it
returns exactly when `len(sb.str) + k` is a length `make` accepts.  The slice is any Go
slice (`len <= cap`). -/
theorem C18_growBy_sizes_from_len {F : Type} (rt : Runtime F) (sb : StringBuilder) (k : Int)
    (hwf : sb.str.len ≤ sb.str.cap) (hk : 1 ≤ k) :
    (∀ sb1, sb.GrowBy rt k = .ok sb1 →
        sb1.str.len = sb.str.len + k.toNat ∧ sb1.str.cap = sb.str.len + k.toNat
        ∧ sb1.str.arr = sb.str.arr.take sb.str.len ++ List.replicate k.toNat 0
        ∧ (∀ j, j < sb.str.len → sb1.str.arr[j]? = sb.str.arr[j]?)
        ∧ (∀ j, sb.str.len ≤ j → j < sb.str.len + k.toNat → sb1.str.arr[j]? = some 0)
        ∧ sb1.i = sb.i)
    ∧ ((∃ sb1, sb.GrowBy rt k = .ok sb1)
        ↔ ((sb.str.len : Int) + k ≤ maxInt64 ∧ (sb.str.len : Int) + k ≤ (rt.maxLen : Int))) := by
  unfold Slice.cap at hwf
  have hlen : (sb.str.arr.take sb.str.len).length = sb.str.len := by simp; omega
  have harr : (afterGrowBy sb k).str.arr
      = sb.str.arr.take sb.str.len ++ List.replicate k.toNat 0 := by
    rw [afterGrowBy_arr]; simp
  constructor
  · intro sb1 hg
    rw [(GrowBy_ok rt sb sb1 k hg).2.2.2]
    refine ⟨?_, ?_, harr, ?_, ?_, rfl⟩
    · simp [afterGrowBy, Slice.copy, Slice.make]
    · simp only [Slice.cap]; rw [harr]; simp; omega
    · intro j hj
      rw [harr, List.getElem?_append_left (by omega), List.getElem?_take_of_lt hj]
    · intro j hj1 hj2
      rw [harr, List.getElem?_append_right (by omega), hlen]
      rw [List.getElem?_replicate]
      simp; omega
  · constructor
    · rintro ⟨sb1, hg⟩
      obtain ⟨_, h1, h2, _⟩ := GrowBy_ok rt sb sb1 k hg
      exact ⟨h1, h2⟩
    · rintro ⟨h1, h2⟩
      exact ⟨afterGrowBy sb k, GrowBy_eq rt sb k hk h1 h2⟩

/-! ## Overflowing `WriteString` on a fresh builder -/

theorem runesToString_zeros (c : Nat) : runesToString (List.replicate c 0) = List.replicate c 0 := by
  induction c with
  | zero => rfl
  | succ n ih =>
    have h0 : encodeRune 0 = [0] := by decide
    simp [List.replicate_succ, runesToString, ih, h0]

/-- A builder whose slice is `make([]rune, c)` and whose cursor is 0, after a `WriteString`
of more than `c` runes. -/
theorem fresh_overflow {F : Type} (rt : Runtime F) (sb : StringBuilder) (c : Nat) (s : GoString)
    (hstr : sb.str = Slice.make c) (hi : sb.i = 0) (hc : 1 ≤ c)
    (hn : c < (stringToRunes s).length) :
    ∃ sb1, sb.WriteString rt s = .ok sb1 ∧ sb1.Len = (stringToRunes s).length
      ∧ sb1.String = .ok (List.replicate c 0
          ++ runesToString ((stringToRunes s).take ((stringToRunes s).length - c))) := by
  have hlen : s.length ≠ 1 := by
    intro h1
    obtain ⟨b, rfl⟩ := List.length_eq_one.mp h1
    rw [stringToRunes_single] at hn
    simp at hn
    omega
  have hlack : sb.str.cap < sb.i + (stringToRunes s).length := by
    rw [hstr, hi, Slice.cap_make]; omega
  have ha : afterWriteRunes rt sb (stringToRunes s)
      = { sb with str := sb.str.append rt.growCap (stringToRunes s),
                  i := sb.i + (stringToRunes s).length } := by
    unfold afterWriteRunes; rw [if_pos hlack]
  have hnofit : ¬ (c + (stringToRunes s).length ≤ c) := by omega
  have harr : (sb.str.append rt.growCap (stringToRunes s)).arr
      = (List.replicate c 0 ++ stringToRunes s) ++ List.replicate
          (max (c + (stringToRunes s).length) (rt.growCap c (c + (stringToRunes s).length))
            - (c + (stringToRunes s).length)) 0 := by
    rw [hstr]
    simp [Slice.append, Slice.make, Slice.cap, hnofit]
  refine ⟨afterWriteRunes rt sb (stringToRunes s), WriteString_general rt sb s hlen, ?_, ?_⟩
  · rw [Len, afterWriteRunes_i, hi]; omega
  · rw [String_ok _ (by rw [ha]; simp only []; rw [harr]; simp; omega), ha]
    simp only []
    rw [harr, hi, Nat.zero_add, List.take_append_of_le_length (by simp),
      List.take_append_eq_append_take, List.take_of_length_le (by simp; omega),
      runesToString_append, runesToString_zeros]
    simp

/-- C19: for `c >= 1` and a string `s` of `n > c` code points, `NewWithCap(c)` after
`WriteString(s)` has `Len() == n` and `String()` equal to `c` zero code points followed by
the first `n - c` code points of `s`; the same holds for `NewDefault()` with `c = 256`. -/
theorem C19_overflow_on_fresh_builder {F : Type} (rt : Runtime F) (c : Nat) (s : GoString)
    (hc : 1 ≤ c) (hn : c < (stringToRunes s).length) :
    (∃ sb1, (NewWithCap c).WriteString rt s = .ok sb1 ∧ sb1.Len = (stringToRunes s).length
        ∧ sb1.String = .ok (List.replicate c 0
            ++ runesToString ((stringToRunes s).take ((stringToRunes s).length - c))))
    ∧ (256 < (stringToRunes s).length →
        ∃ sb1, NewDefault.WriteString rt s = .ok sb1 ∧ sb1.Len = (stringToRunes s).length
          ∧ sb1.String = .ok (List.replicate 256 0
              ++ runesToString ((stringToRunes s).take ((stringToRunes s).length - 256)))) :=
  ⟨fresh_overflow rt (NewWithCap c) c s rfl rfl hc hn,
    fun h => fresh_overflow rt NewDefault 256 s rfl rfl (by decide) h⟩

/-! ## `GrowWithRate` on capacity 0, and its delta -/

/-- C20: on a builder with `Cap() == 0`, a rate that is not negative and for which
`int(math.Round(float64(0) * rate))` is 0 makes `GrowWithRate` return the "failed to grow"
error with the builder unchanged; with exact arithmetic this covers every finite rate that
is not negative. -/
theorem C20_zero_capacity_never_grows {F : Type} (rt : Runtime F) (sb : StringBuilder)
    (rate : F) (hcap : sb.Cap = 0) (h : rt.ltZero rate = false)
    (h0 : rt.roundMul 0 rate = 0) :
    sb.GrowWithRate rt rate = .ok (sb, some .rateTooSmall)
    ∧ (∀ (sb2 : StringBuilder) (d : Dyadic), sb2.Cap = 0 → 0 ≤ d.num →
        sb2.GrowWithRate gcRuntime d = .ok (sb2, some .rateTooSmall)) := by
  have key : ∀ {G : Type} (rt2 : Runtime G) (sb2 : StringBuilder) (x : G), sb2.Cap = 0 →
      rt2.ltZero x = false → rt2.roundMul 0 x = 0 →
      sb2.GrowWithRate rt2 x = .ok (sb2, some .rateTooSmall) := by
    intro G rt2 sb2 x hc hz hr
    simp only [Cap] at hc
    have hz2 : ¬ rt2.ltZero x = true := by simp [hz]
    rw [GrowWithRate_eq, if_neg hz2, if_pos (by rw [hc, hr]; rfl)]
  refine ⟨key rt sb rate hcap h h0, ?_⟩
  intro sb2 d hc hd
  apply key gcRuntime sb2 d hc
  · simp [gcRuntime]; omega
  · simp only [gcRuntime, roundHalfAway]
    have hp : (0 : Int) ≤ ((0 : Nat) : Int) * d.num := by simp
    rw [if_pos hp]
    have hpow : (0 : Int) < 2 ^ d.exp := by positivity
    have : (2 * (((0 : Nat) : Int) * d.num) + 2 ^ d.exp : Int) = 2 ^ d.exp := by simp
    rw [this, pow_succ]
    exact Int.ediv_eq_zero_of_lt (le_of_lt hpow) (by omega)

/-- A `GrowWithRate` call that returns `nil` leaves the builder `GrowBy` leaves for the
computed delta. -/
theorem GrowWithRate_success_is_GrowBy {F : Type} (rt : Runtime F) (sb sb1 : StringBuilder)
    (rate : F) (h : sb.GrowWithRate rt rate = .ok (sb1, none)) :
    sb.GrowBy rt (rt.roundMul sb.Cap rate) = .ok sb1 := by
  rcases GrowWithRate_cases rt sb rate sb1 none h with ⟨_, h2⟩ | ⟨_, h2⟩
  · exact absurd rfl h2
  · exact h2

/-- C15 (failing input): under gc's doubling, `NewWithCap(4)` after `WriteString("abcd")`
and `WriteRune('e')` has `Cap() == 8` and a slice of length 5; `GrowWithRate(0.5)` computes
the delta 4, returns `nil`, and leaves `Cap() == 9` (slice length plus 4), not 8 + 4. -/
theorem C15_growWithRate_adds_to_len :
    run gcRuntime (NewWithCap 4) [.writeString abcd, .writeRune 101] = .ok fiveBuilder
    ∧ fiveBuilder.Cap = 8
    ∧ gcRuntime.roundMul fiveBuilder.Cap ⟨1, 1⟩ = 4
    ∧ (fiveBuilder.GrowWithRate gcRuntime ⟨1, 1⟩).map (fun p => (p.1.Cap, p.2))
        = .ok (9, none) := by
  decide

/-! ## Further instances -/

/-- `NewWithCap(5)`: `GrowBy(0)` panics and leaves the builder alone, `GrowBy(10)` returns
with `Cap() == 15` and `Len() == 0`, `GrowBy(math.MaxInt64)` panics in `make` and leaves
the builder alone. -/
theorem C11_growBy_faults_below_one_witness :
    ((0 : Int) < 1 ∧ (NewWithCap 5).GrowBy gcRuntime 0 = .error .growByCapacity
        ∧ GrowByExit gcRuntime (NewWithCap 5) 0 = (NewWithCap 5, some .growByCapacity))
    ∧ (((1 : Int) ≤ 10 ∧ ((NewWithCap 5).str.len : Int) + 10 ≤ maxInt64
          ∧ ((NewWithCap 5).str.len : Int) + 10 ≤ (gcRuntime.maxLen : Int))
        ∧ ∃ sb1, (NewWithCap 5).GrowBy gcRuntime 10 = .ok sb1
            ∧ GrowByExit gcRuntime (NewWithCap 5) 10 = (sb1, none))
    ∧ (((1 : Int) ≤ maxInt64 ∧ maxInt64 < ((NewWithCap 5).str.len : Int) + maxInt64)
        ∧ (NewWithCap 5).GrowBy gcRuntime maxInt64 = .error .makeLenOutOfRange
        ∧ GrowByExit gcRuntime (NewWithCap 5) maxInt64
            = (NewWithCap 5, some .makeLenOutOfRange))
    ∧ ((NewWithCap 5).GrowBy gcRuntime 10).map (fun sb => (sb.Cap, sb.Len)) = .ok (15, 0) :=
  ⟨⟨by decide, (C11_growBy_faults_below_one gcRuntime (NewWithCap 5) 0).1 (by decide)⟩,
    ⟨⟨by decide, by decide, by decide⟩,
      (C11_growBy_faults_below_one gcRuntime (NewWithCap 5) 10).2.2.1
        (by decide) (by decide) (by decide)⟩,
    ⟨⟨by decide, by decide⟩,
      (C11_growBy_faults_below_one gcRuntime (NewWithCap 5) maxInt64).2.2.2
        (by decide) (Or.inl (by decide))⟩,
    by decide⟩

/-- `NewWithCap(4)` after "abcd" and 'e': cursor 5, slice length 5, capacity 8. -/
theorem C12_len_le_cap_witness :
    Reachable gcRuntime fiveBuilder
    ∧ (0 ≤ fiveBuilder.Len ∧ fiveBuilder.Len ≤ fiveBuilder.Cap
        ∧ fiveBuilder.i ≤ fiveBuilder.str.len ∧ fiveBuilder.str.len ≤ fiveBuilder.str.cap)
    ∧ (fiveBuilder.Len, fiveBuilder.str.len, fiveBuilder.Cap) = (5, 5, 8) :=
  ⟨Or.inr ⟨4, [.writeString abcd, .writeRune 101], by decide⟩,
    C12_len_le_cap gcRuntime fiveBuilder
      (Or.inr ⟨4, [.writeString abcd, .writeRune 101], by decide⟩),
    by decide⟩

/-- The full builder `NewWithCap(4)` after "abcd" accepts a rune, a string, and a read. -/
theorem C13_writes_and_reads_complete_witness :
    Reachable gcRuntime abcdBuilder
    ∧ (∃ sb1, abcdBuilder.WriteRune gcRuntime 101 = .ok sb1)
    ∧ (∃ sb1, abcdBuilder.WriteString gcRuntime hello = .ok sb1)
    ∧ (∃ str, abcdBuilder.String = .ok str)
    ∧ abcdBuilder.String = .ok abcd :=
  ⟨Or.inr ⟨4, [.writeString abcd], by decide⟩,
    ((C13_writes_and_reads_complete gcRuntime abcdBuilder
      (Or.inr ⟨4, [.writeString abcd], by decide⟩)).1 101).1,
    ((C13_writes_and_reads_complete gcRuntime abcdBuilder
      (Or.inr ⟨4, [.writeString abcd], by decide⟩)).2.1 hello).1,
    (C13_writes_and_reads_complete gcRuntime abcdBuilder
      (Or.inr ⟨4, [.writeString abcd], by decide⟩)).2.2.1,
    by decide⟩

/-- On the full builder holding "abcd", `WriteRune('e')` takes the appending branch and
`String()` becomes "abcde"; on the builder holding "hello" with room left, `WriteRune('!')`
stores in place and `String()` becomes "hello!". -/
theorem C16_writeRune_at_logical_end_witness :
    Reachable gcRuntime abcdBuilder
    ∧ (∃ prev sb1, abcdBuilder.String = .ok prev ∧ abcdBuilder.WriteRune gcRuntime 101 = .ok sb1
        ∧ sb1.String = .ok (prev ++ encodeRune 101)
        ∧ (abcdBuilder.updateLenToCap.isLackCapacity [101] = true
            → abcdBuilder.Len = abcdBuilder.Cap))
    ∧ abcdBuilder.updateLenToCap.isLackCapacity [101] = true
    ∧ (abcdBuilder.WriteRune gcRuntime 101).bind StringBuilder.String
        = .ok [97, 98, 99, 100, 101]
    ∧ helloBuilder.updateLenToCap.isLackCapacity [33] = false
    ∧ (helloBuilder.WriteRune gcRuntime 33).bind StringBuilder.String
        = .ok [104, 101, 108, 108, 111, 33] :=
  ⟨Or.inr ⟨4, [.writeString abcd], by decide⟩,
    C16_writeRune_at_logical_end gcRuntime abcdBuilder 101
      (Or.inr ⟨4, [.writeString abcd], by decide⟩),
    by decide, by decide, by decide, by decide⟩

/-- On the builder holding "hello", `WriteString("é")` (two bytes, general path) and
`WriteRune('é')` give the same builder, and so do `WriteString("!")` (one byte, shortcut)
and `WriteRune('!')`. -/
theorem C17_single_code_point_agrees_witness :
    (Reachable gcRuntime helloBuilder
      ∧ runesToString (stringToRunes [0xC3, 0xA9]) = [0xC3, 0xA9]
      ∧ stringToRunes [0xC3, 0xA9] = [0xE9]
      ∧ runesToString (stringToRunes [33]) = [33] ∧ stringToRunes [33] = [33])
    ∧ (∃ sb1, helloBuilder.WriteString gcRuntime [0xC3, 0xA9] = .ok sb1
        ∧ helloBuilder.WriteRune gcRuntime 0xE9 = .ok sb1)
    ∧ (∃ sb1, helloBuilder.WriteString gcRuntime [33] = .ok sb1
        ∧ helloBuilder.WriteRune gcRuntime 33 = .ok sb1) :=
  ⟨⟨Or.inr ⟨10, [.writeString hello], by decide⟩, by decide, by decide, by decide, by decide⟩,
    C17_single_code_point_agrees gcRuntime helloBuilder [0xC3, 0xA9] 0xE9
      (Or.inr ⟨10, [.writeString hello], by decide⟩) (by decide) (by decide),
    C17_single_code_point_agrees gcRuntime helloBuilder [33] 33
      (Or.inr ⟨10, [.writeString hello], by decide⟩) (by decide) (by decide)⟩

/-- The builder with slice length 5 and capacity 8: `GrowBy(1)` returns and leaves a slice
of length and capacity 6 holding "abcde" and one zero rune. -/
theorem C18_growBy_sizes_from_len_witness :
    (fiveBuilder.str.len ≤ fiveBuilder.str.cap ∧ (1 : Int) ≤ 1)
    ∧ (∃ sb1, fiveBuilder.GrowBy gcRuntime 1 = .ok sb1)
    ∧ (∀ sb1, fiveBuilder.GrowBy gcRuntime 1 = .ok sb1 →
        sb1.str.len = fiveBuilder.str.len + (1 : Int).toNat
        ∧ sb1.str.cap = fiveBuilder.str.len + (1 : Int).toNat
        ∧ sb1.str.arr = fiveBuilder.str.arr.take fiveBuilder.str.len
            ++ List.replicate (1 : Int).toNat 0
        ∧ (∀ j, j < fiveBuilder.str.len → sb1.str.arr[j]? = fiveBuilder.str.arr[j]?)
        ∧ (∀ j, fiveBuilder.str.len ≤ j → j < fiveBuilder.str.len + (1 : Int).toNat
            → sb1.str.arr[j]? = some 0)
        ∧ sb1.i = fiveBuilder.i)
    ∧ (fiveBuilder.GrowBy gcRuntime 1).map (fun sb => sb.str)
        = .ok ⟨[97, 98, 99, 100, 101, 0], 6⟩ :=
  ⟨⟨by decide, by decide⟩,
    (C18_growBy_sizes_from_len gcRuntime fiveBuilder 1 (by decide) (by decide)).2.2
      ⟨by decide, by decide⟩,
    (C18_growBy_sizes_from_len gcRuntime fiveBuilder 1 (by decide) (by decide)).1,
    by decide⟩

/-- `NewWithCap(3)`, `WriteString("abcd")`: `Len() == 4`, `String()` is three zero bytes and
"a". -/
theorem C19_overflow_on_fresh_builder_witness :
    (1 ≤ 3 ∧ 3 < (stringToRunes abcd).length)
    ∧ (∃ sb1, (NewWithCap 3).WriteString gcRuntime abcd = .ok sb1
        ∧ sb1.Len = (stringToRunes abcd).length
        ∧ sb1.String = .ok (List.replicate 3 0
            ++ runesToString ((stringToRunes abcd).take ((stringToRunes abcd).length - 3))))
    ∧ ((NewWithCap 3).WriteString gcRuntime abcd).map Len = .ok 4
    ∧ ((NewWithCap 3).WriteString gcRuntime abcd).bind StringBuilder.String
        = .ok [0, 0, 0, 97] :=
  ⟨⟨by decide, by decide⟩,
    (C19_overflow_on_fresh_builder gcRuntime 3 abcd (by decide) (by decide)).1,
    by decide, by decide⟩

/-- `NewWithCap(0)`, `GrowWithRate(1.5)`: the delta is 0, the capacity. -/
theorem C20_zero_capacity_never_grows_witness :
    ((NewWithCap 0).Cap = 0 ∧ gcRuntime.ltZero ⟨3, 1⟩ = false
      ∧ gcRuntime.roundMul 0 ⟨3, 1⟩ = 0)
    ∧ (NewWithCap 0).GrowWithRate gcRuntime ⟨3, 1⟩ = .ok (NewWithCap 0, some .rateTooSmall) :=
  ⟨⟨by decide, by decide, by decide⟩,
    (C20_zero_capacity_never_grows gcRuntime (NewWithCap 0) ⟨3, 1⟩ (by decide) (by decide)
      (by decide)).1⟩

end SBX
